import Mathlib

/-!
# Verification of the eagle-db memtable (`memtable.go`)

A shallow embedding of the sharded, incrementally-resizing hash table in
`memtable.go`, together with proofs about its operations.

Modelling choices:
* `key []byte` becomes `Key := List Nat`; `bytes.Equal` becomes decidable
  equality of lists.
* `*ValuePointer` becomes `Option ValuePointer`; the pointer itself is an
  opaque handle the table never interprets, modelled as `Nat`.
* `uint64` sequence numbers become `Nat` (only compared, never added).
* The `util.AtomicInt32` counters become `Int` fields; all mutation happens
  under the partition's exclusive lock in the source, so plain fields are a
  faithful sequential model.
* The murmur3 32-bit hash lives in an external package, so the hash function
  is a parameter `hashKey : Key → Nat`; the table layer truncates its result
  to 32 bits, which is what the `uint32` return type enforces in the source.
* A Go runtime panic (out-of-range slice index) is modelled by returning
  `none` from the operation: `put` returns `Option` because one of its paths
  indexes `t.buckets[-1]`.
-/

/-- `ValuePointer` is an opaque, copyable handle (defined outside
`memtable.go`); the table stores and returns it without interpreting it, so a
`Nat` stands in for it. -/
abbrev ValuePointer := Nat

/-- A key is a byte string (`[]byte`). -/
abbrev Key := List Nat

/-- One physical record in a bucket chain (`node` in `memtable.go`).
The `next` pointer of the source becomes the list structure of a chain. -/
structure Node where
  seqNumber : Nat
  key : Key
  ptr : Option ValuePointer
  deriving Repr, DecidableEq

/-- A bucket chain: the source's singly linked list of `node`s, head first. -/
abbrev Chain := List Node

/-- `tablePartition`: `buckets` is a two-slot array in the source; slot 0
(`buckets0`, the active array) is always non-nil, slot 1 (`buckets1`, the
incoming array) exists only during a resize, hence the `Option`. -/
structure Partition where
  resizeInProgress : Bool
  nextResizeIndex : Int
  buckets0 : List Chain
  buckets1 : Option (List Chain)
  nElements : Int
  nNodes : Int
  deriving Repr, DecidableEq

/-- `initialBucketSize` in the source. -/
def initialBucketSize : Nat := 4

/-- `numPartitions` in the source. -/
def numPartitions : Nat := 16

/-- Read bucket `i` of a bucket array (`buckets[hash%len]` in the source;
indices are always in range in reachable states). -/
def getChain (bs : List Chain) (i : Nat) : Chain := bs.getD i []

/-- Write bucket `i` of a bucket array. -/
def setChain (bs : List Chain) (i : Nat) (c : Chain) : List Chain := bs.set i c

/-- `newTablePartition`: 4 empty buckets, no resize in flight. -/
def newTablePartition : Partition :=
  { resizeInProgress := false
    nextResizeIndex := -1
    buckets0 := List.replicate initialBucketSize []
    buckets1 := none
    nElements := 0
    nNodes := 0 }

/-- The inner loop of `findNode` on one chain: the position and value of the
first node whose key equals `key` (`bytes.Equal`), if any. -/
def findInChain (key : Key) : Chain → Option (Nat × Node)
  | [] => none
  | nd :: rest =>
    if nd.key = key then some (0, nd)
    else (findInChain key rest).map (fun pn => (pn.1 + 1, pn.2))

/-- `tablePartition.findNode`: scan the active array first (bucket
`hash % len`), then the incoming array if present.  Returns which array the
node was found in (0 or 1, the source's `bucketIndex`), its position in its
chain (position 0 means the source's `prevNode` is nil), and the node;
`none` corresponds to the source's `(-1, nil, nil)`. -/
def Partition.findNode (t : Partition) (key : Key) (hash : Nat) :
    Option (Nat × Nat × Node) :=
  match findInChain key (getChain t.buckets0 (hash % t.buckets0.length)) with
  | some pn => some (0, pn.1, pn.2)
  | none =>
    match t.buckets1 with
    | none => none
    | some b1 =>
      (findInChain key (getChain b1 (hash % b1.length))).map
        (fun pn => (1, pn.1, pn.2))

/-- `tablePartition.get`. -/
def Partition.get (t : Partition) (key : Key) (hash : Nat) :
    Option ValuePointer × Nat :=
  match t.findNode key hash with
  | some (_, _, nd) => (nd.ptr, nd.seqNumber)
  | none => (none, 0)

/-- `tablePartition.containsKey`. -/
def Partition.containsKeyP (t : Partition) (key : Key) (hash : Nat) : Bool :=
  (t.get key hash).1.isSome

/-- `tablePartition.completeResize`: promote the incoming array to active and
clear the resize state. -/
def Partition.completeResize (t : Partition) : Partition :=
  { t with
    buckets0 := t.buckets1.getD []
    buckets1 := none
    resizeInProgress := false
    nextResizeIndex := -1 }

/-- The migration loop of `resizeStep`: walk the chain head to tail and
prepend each node to its re-hashed bucket of the incoming array. -/
def migrateChain (hashKey : Key → Nat) (c : Chain) (bs : List Chain) :
    List Chain :=
  c.foldl
    (fun acc nd =>
      let j := hashKey nd.key % acc.length
      setChain acc j (nd :: getChain acc j))
    bs

/-- `tablePartition.resizeStep`: if a resize is in flight, advance the cursor,
migrate exactly the bucket at the new cursor into the incoming array
(re-hashing each key), empty that bucket, and complete the resize if it was
the last bucket. -/
def Partition.resizeStep (hashKey : Key → Nat) (t : Partition) : Partition :=
  if t.resizeInProgress then
    let i : Nat := (t.nextResizeIndex + 1).toNat
    let b1 := migrateChain hashKey (getChain t.buckets0 i) (t.buckets1.getD [])
    let t' : Partition :=
      { t with
        nextResizeIndex := t.nextResizeIndex + 1
        buckets0 := setChain t.buckets0 i []
        buckets1 := some b1 }
    if i = t.buckets0.length - 1 then t'.completeResize else t'
  else t

/-- `tablePartition.resizeIfNeeded`: the resize trigger check.  Runs only when
no resize is in flight; grows when `nNodes > 5*nBuckets`, shrinks when
`nNodes < nBuckets/4` and `nNodes > initialBucketSize`. -/
def Partition.resizeIfNeeded (t : Partition) : Partition :=
  if t.resizeInProgress then t
  else
    let nBuckets : Int := t.buckets0.length
    if t.nNodes > 5 * nBuckets then
      { t with
        buckets1 := some (List.replicate (2 * t.buckets0.length) [])
        resizeInProgress := true }
    else if t.nNodes < nBuckets / 4 ∧ t.nNodes > (initialBucketSize : Int) then
      { t with
        buckets1 := some (List.replicate (t.buckets0.length / 2) [])
        resizeInProgress := true }
    else t

/-- Replace the node at position `pos` of the chain the key hashed to in
array `arr` (0 = active, 1 = incoming).  Models in-place mutation of a found
node. -/
def Partition.setNodeAt (t : Partition) (arr : Nat) (hash : Nat) (pos : Nat)
    (nd : Node) : Partition :=
  if arr = 0 then
    let j := hash % t.buckets0.length
    { t with buckets0 := setChain t.buckets0 j ((getChain t.buckets0 j).set pos nd) }
  else
    let b1 := t.buckets1.getD []
    let j := hash % b1.length
    { t with buckets1 := some (setChain b1 j ((getChain b1 j).set pos nd)) }

/-- Unlink the node at position `pos` of the chain the key hashed to in array
`arr`: the source's `prevNode.next = currNode.next` when `pos > 0`, or the
bucket-head rewrite when `pos = 0`; both are `eraseIdx` on the chain. -/
def Partition.unlinkNodeAt (t : Partition) (arr : Nat) (hash : Nat) (pos : Nat) :
    Partition :=
  if arr = 0 then
    let j := hash % t.buckets0.length
    { t with buckets0 := setChain t.buckets0 j ((getChain t.buckets0 j).eraseIdx pos) }
  else
    let b1 := t.buckets1.getD []
    let j := hash % b1.length
    { t with buckets1 := some (setChain b1 j ((getChain b1 j).eraseIdx pos)) }

/-- `tablePartition.put`.  Returns `none` where the source program panics:
when the key is absent and the value pointer is nil, the source creates and
links a fresh node but then reaches the unlink path with the `bucketIndex`
of the failed lookup, which is `-1`, and `t.buckets[-1]` is an out-of-range
slice index. -/
def Partition.put (hashKey : Key → Nat) (key : Key) (seqNumber : Nat)
    (ptr : Option ValuePointer) (hash : Nat) (t : Partition) :
    Option ((Option ValuePointer × Bool) × Partition) :=
  let t := t.resizeStep hashKey
  match t.findNode key hash with
  | none =>
    -- the source creates `&node{key: key}` (seqNumber 0, ptr nil), links it
    -- at the head of its bucket (in the incoming array when a resize is in
    -- flight), and increments both counters; `bucketIndex` remains -1
    let tIns : Partition :=
      if t.resizeInProgress then
        let b1 := t.buckets1.getD []
        let j := hash % b1.length
        { t with
          buckets1 := some (setChain b1 j (⟨0, key, none⟩ :: getChain b1 j))
          nElements := t.nElements + 1
          nNodes := t.nNodes + 1 }
      else
        let j := hash % t.buckets0.length
        { t with
          buckets0 := setChain t.buckets0 j (⟨0, key, none⟩ :: getChain t.buckets0 j)
          nElements := t.nElements + 1
          nNodes := t.nNodes + 1 }
    -- `seqNumber >= 0` always holds for the fresh node, so the update branch
    -- is taken; its previous pointer is nil
    if ptr = none then
      -- unlink path with `prevNode == nil` and `bucketIndex == -1`:
      -- `t.buckets[-1]` panics
      none
    else
      -- update the fresh node (head of the bucket it was linked into) in place
      let tUpd : Partition :=
        if t.resizeInProgress then
          let b1 := tIns.buckets1.getD []
          let j := hash % b1.length
          { tIns with
            buckets1 := some (setChain b1 j ((getChain b1 j).set 0 ⟨seqNumber, key, ptr⟩)) }
        else
          let j := hash % tIns.buckets0.length
          { tIns with
            buckets0 := setChain tIns.buckets0 j ((getChain tIns.buckets0 j).set 0 ⟨seqNumber, key, ptr⟩) }
      some ((none, true), tUpd.resizeIfNeeded)
  | some (arr, pos, nd) =>
    if seqNumber ≥ nd.seqNumber then
      let prev := nd.ptr
      if ptr = none then
        let t' := (t.unlinkNodeAt arr hash pos)
        let t' := { t' with nNodes := t'.nNodes - 1 }
        some ((prev, true), t'.resizeIfNeeded)
      else
        let t' := t.setNodeAt arr hash pos ⟨seqNumber, key, ptr⟩
        some ((prev, true), t'.resizeIfNeeded)
    else
      some ((ptr, false), t.resizeIfNeeded)

/-- `tablePartition.remove`: tombstone in place, never unlink; the stored
sequence number is left untouched; `nElements` is decremented only when a
value was actually present.  No resize trigger check runs. -/
def Partition.remove (hashKey : Key → Nat) (key : Key) (seqNum : Nat)
    (hash : Nat) (t : Partition) : Option ValuePointer × Partition :=
  let t := t.resizeStep hashKey
  match t.findNode key hash with
  | none => (none, t)
  | some (arr, pos, nd) =>
    if seqNum ≥ nd.seqNumber then
      let removePtr := nd.ptr
      let t' := t.setNodeAt arr hash pos ⟨nd.seqNumber, nd.key, none⟩
      let t' :=
        if removePtr ≠ none then { t' with nElements := t'.nElements - 1 } else t'
      (removePtr, t')
    else
      (none, t)

/-- `memTable`: 16 partitions; the per-partition RW locks serialize all the
operations modelled here, so they do not appear in the sequential model. -/
structure MemTable where
  partitions : List Partition
  deriving Repr, DecidableEq

/-- `newMemTable`. -/
def newMemTable : MemTable :=
  { partitions := List.replicate numPartitions newTablePartition }

/-- The 32-bit digest of a key.  Modelled from the spec: the murmur3 hash is
an external collaborator returning a `uint32`; an arbitrary `hashKey`
function truncated to 32 bits stands for it. -/
def hash32 (hashKey : Key → Nat) (key : Key) : Nat := hashKey key % 2 ^ 32

/-- Partition selection: `hash >> 28` on the 32-bit digest. -/
def partitionIndex (hashKey : Key → Nat) (key : Key) : Nat :=
  hash32 hashKey key / 2 ^ 28

/-- `memTable.Get`. -/
def MemTable.Get (hashKey : Key → Nat) (key : Key) (t : MemTable) :
    Option ValuePointer × Nat :=
  let h := hash32 hashKey key
  let p := partitionIndex hashKey key
  (t.partitions.getD p newTablePartition).get key h

/-- `memTable.Put`. -/
def MemTable.Put (hashKey : Key → Nat) (key : Key) (seqNumber : Nat)
    (ptr : Option ValuePointer) (t : MemTable) :
    Option ((Option ValuePointer × Bool) × MemTable) :=
  let h := hash32 hashKey key
  let p := partitionIndex hashKey key
  (Partition.put (fun k => hash32 hashKey k) key seqNumber ptr h
      (t.partitions.getD p newTablePartition)).map
    (fun rp => (rp.1, { t with partitions := t.partitions.set p rp.2 }))

/-- `memTable.Remove`. -/
def MemTable.Remove (hashKey : Key → Nat) (key : Key) (seqNumber : Nat)
    (t : MemTable) : Option ValuePointer × MemTable :=
  let h := hash32 hashKey key
  let p := partitionIndex hashKey key
  let rp := Partition.remove (fun k => hash32 hashKey k) key seqNumber h
      (t.partitions.getD p newTablePartition)
  (rp.1, { t with partitions := t.partitions.set p rp.2 })

/-- `memTable.ContainsKey`. -/
def MemTable.ContainsKey (hashKey : Key → Nat) (key : Key) (t : MemTable) :
    Bool :=
  let h := hash32 hashKey key
  let p := partitionIndex hashKey key
  (t.partitions.getD p newTablePartition).containsKeyP key h

/-- `memTable.Size`: the sum of the partitions' `nElements` counters. -/
def MemTable.Size (t : MemTable) : Int :=
  t.partitions.foldl (fun n p => n + p.nElements) 0

/-- A mutating table operation (the claims quantify over sequences of puts
and removes). -/
inductive Op where
  | put (key : Key) (seqNumber : Nat) (ptr : Option ValuePointer)
  | remove (key : Key) (seqNumber : Nat)
  deriving Repr, DecidableEq

/-- Apply one operation to a partition the way `memTable` invokes it: the
`hash` argument is the digest of the operation's key.  `none` models a
panic of the program. -/
def applyOp (hashKey : Key → Nat) (op : Op) (t : Partition) : Option Partition :=
  match op with
  | .put k sq v => (Partition.put hashKey k sq v (hashKey k) t).map (·.2)
  | .remove k sq => some (Partition.remove hashKey k sq (hashKey k) t).2

/-- Run a sequence of operations from a starting partition state; `none` as
soon as one of them panics. -/
def runOps (hashKey : Key → Nat) (ops : List Op) (t : Partition) :
    Option Partition :=
  ops.foldl (fun acc op => acc.bind (applyOp hashKey op)) (some t)

/-- A partition state reachable from a fresh partition by put/remove
sequences. -/
def Reachable (hashKey : Key → Nat) (t : Partition) : Prop :=
  ∃ ops : List Op, runOps hashKey ops newTablePartition = some t

/-- All chains of a partition, active array first. -/
def allChains (t : Partition) : List Chain :=
  t.buckets0 ++ t.buckets1.getD []

/-- All nodes of a partition. -/
def allNodes (t : Partition) : List Node :=
  (allChains t).flatten

/-- The keys stored in a partition, in chain order. -/
def keysOf (t : Partition) : List Key :=
  (allNodes t).map Node.key

/-- The number of live (non-tombstoned) entries of a partition: what the
spec calls `liveCount`. -/
def countLive (t : Partition) : Nat :=
  ((allNodes t).filter (fun nd => nd.ptr.isSome)).length

/-- The total number of live entries of the whole table. -/
def MemTable.totalLive (t : MemTable) : Nat :=
  t.partitions.foldl (fun n p => n + countLive p) 0

/-- A concrete hash function used for counterexample runs: the first byte of
the key. -/
def exampleHash : Key → Nat := fun k => k.headD 0

/-- The key `"a"` (byte 0x61) of the spec's concrete scenario. -/
def akey : Key := [97]

/-- The grow condition of the resize trigger (`nNodes > 5*nBuckets`,
line 227 of `memtable.go`), as an observable predicate. -/
def growCondB (t : Partition) : Bool :=
  t.nNodes > 5 * (t.buckets0.length : Int)

/-- The shrink condition of the resize trigger
(`int(nNodes) < int(nBuckets)/4 && nNodes > initialBucketSize`, line 230),
as an observable predicate. -/
def shrinkCondB (t : Partition) : Bool :=
  t.nNodes < (t.buckets0.length : Int) / 4 && t.nNodes > (initialBucketSize : Int)

/-- Modelled from the spec: the resize trigger check ran on this state and
either began a resize or found neither condition satisfied.  If a state has
no resize in flight but one of the trigger conditions holds, the trigger
check cannot have run on it. -/
def triggerRanAfter (t' : Partition) : Bool :=
  t'.resizeInProgress || !(growCondB t' || shrinkCondB t')

/-- Modelled from the spec: the in-flight part of the claimed resize
invariant.  While a resize is in flight, (a) every active bucket at an index
already passed by the cursor is empty, and (b) buckets not yet reached
remain exclusively in active, i.e. every entry in the incoming array belongs
to an active bucket index already passed. -/
def resizeExclusivityHolds (hashKey : Key → Nat) (t : Partition) : Bool :=
  !t.resizeInProgress ||
    ((List.range t.buckets0.length).all (fun i =>
        decide ((t.nextResizeIndex : Int) < (i : Int)) ||
          (getChain t.buckets0 i).isEmpty) &&
      ((t.buckets1.getD []).flatten.all (fun nd =>
        decide (((hashKey nd.key % t.buckets0.length : Nat) : Int) ≤ t.nextResizeIndex))))

/-- The 22-operation run of the resize-exclusivity counterexample: 21 puts of
distinct keys trigger a grow, and one more put of a fresh key is inserted
while the resize is in flight. -/
def opsFreshInsertDuringResize : List Op :=
  ((List.range 21).map (fun i => Op.put [i] 1 (some 1))) ++
    [Op.put [101] 1 (some 7)]

/-- A 448-operation run that ends with a shrink resize in flight at cursor 62
of 64: 200 puts of distinct keys grow the table to 64 buckets, 193 nil-value
puts unlink nodes down to 7 (starting a shrink at 15), and 55 removes of an
absent key advance the migration cursor. -/
def opsShrinkAlmostDone : List Op :=
  ((List.range 200).map (fun i => Op.put [i] 1 (some 1))) ++
    ((List.range 185).map (fun i => Op.put [i] 2 none)) ++
    ((List.range 8).map (fun i => Op.put [185 + i] 2 none)) ++
    (List.replicate 55 (Op.remove [250] 1))

/-- Outputs of the spec's concrete scenario, run on a fresh table:
`put("a",1,P1); put("a",1,P2); get("a"); remove("a",2); get("a");
put("a",3,P3); get("a")` with `P1 = 1`, `P2 = 2`, `P3 = 3`. -/
def scenarioOutputs (hashKey : Key → Nat) :
    Option ((Option ValuePointer × Bool) × (Option ValuePointer × Bool) ×
      (Option ValuePointer × Nat) × Option ValuePointer ×
      (Option ValuePointer × Nat) × (Option ValuePointer × Bool) ×
      (Option ValuePointer × Nat)) :=
  (newMemTable.Put hashKey akey 1 (some 1)).bind fun r1 =>
  (r1.2.Put hashKey akey 1 (some 2)).bind fun r2 =>
  let g1 := r2.2.Get hashKey akey
  let r3 := r2.2.Remove hashKey akey 2
  let g2 := r3.2.Get hashKey akey
  (r3.2.Put hashKey akey 3 (some 3)).map fun r4 =>
  let g3 := r4.2.Get hashKey akey
  (r1.1, r2.1, g1, r3.1, g2, r4.1, g3)

/-- Intermediate single-entry partition states of the concrete scenario, as a
function of the digest of `"a"`: one node for `akey` in bucket `h % 4`. -/
def scenPart (h : Nat) (sq : Nat) (p : Option ValuePointer) (nE : Int) :
    Partition :=
  { resizeInProgress := false, nextResizeIndex := -1,
    buckets0 := List.set [[], [], [], []] (h % 4) [⟨sq, akey, p⟩],
    buckets1 := none, nElements := nE, nNodes := 1 }

/-- The table whose partition `p` holds `P` and whose other partitions are
fresh. -/
def oneBusyTable (p : Nat) (P : Partition) : MemTable :=
  { partitions := (List.replicate 16 newTablePartition).set p P }

/-- Every node of a bucket array sits in the bucket its key hashes to. -/
def placedIn (hashKey : Key → Nat) (bs : List Chain) : Prop :=
  ∀ j : Nat, ∀ nd ∈ getChain bs j, hashKey nd.key % bs.length = j

/-- The structural invariant of a partition, preserved by every operation:
the active array is nonempty; the incoming array exists exactly while a
resize is in flight and is then nonempty; the cursor is `-1` when idle and
stays in `[-1, len-2]` in flight; migrated active buckets are empty; every
node sits in the bucket its key hashes to; and no key is stored twice. -/
structure PartInv (hashKey : Key → Nat) (t : Partition) : Prop where
  len0_pos : 0 < t.buckets0.length
  flag_iff : t.buckets1.isSome = t.resizeInProgress
  len1_pos : ∀ b1, t.buckets1 = some b1 → 0 < b1.length
  cursor_idle : t.resizeInProgress = false → t.nextResizeIndex = -1
  cursor_lb : t.resizeInProgress = true → -1 ≤ t.nextResizeIndex
  cursor_ub : t.resizeInProgress = true →
    t.nextResizeIndex ≤ (t.buckets0.length : Int) - 2
  emptied : t.resizeInProgress = true → ∀ i : Nat,
    (i : Int) ≤ t.nextResizeIndex → getChain t.buckets0 i = []
  placed0 : placedIn hashKey t.buckets0
  placed1 : ∀ b1, t.buckets1 = some b1 → placedIn hashKey b1
  nodup : (keysOf t).Nodup

/-- The entry stored for a key: the first node with that key in chain order
(unique in every reachable state). -/
def entryOf (t : Partition) (k : Key) : Option Node :=
  (allNodes t).find? (fun nd => nd.key == k)

/-- The net effect of put's fresh-key path when the value pointer is
present: the source creates a `seqNumber 0` node, links it at the head of
its bucket (of the incoming array when a resize is in flight), and at once
overwrites its fields in place. -/
def insertNode (t : Partition) (key : Key) (sq : Nat)
    (v : Option ValuePointer) (hash : Nat) : Partition :=
  if t.resizeInProgress then
    let b1 := t.buckets1.getD []
    let j := hash % b1.length
    { t with
      buckets1 := some (setChain b1 j (⟨sq, key, v⟩ :: getChain b1 j))
      nElements := t.nElements + 1
      nNodes := t.nNodes + 1 }
  else
    let j := hash % t.buckets0.length
    { t with
      buckets0 := setChain t.buckets0 j (⟨sq, key, v⟩ :: getChain t.buckets0 j)
      nElements := t.nElements + 1
      nNodes := t.nNodes + 1 }

/-- The partition reached by a concrete run under `exampleHash`. -/
def stateAfter (ops : List Op) : Partition :=
  (runOps exampleHash ops newTablePartition).getD newTablePartition

/-! ## Basic list-access lemmas -/

theorem getD_set_self {α : Type _} (l : List α) (i : Nat) (a d : α)
    (h : i < l.length) : (l.set i a).getD i d = a := by
  simp [List.getD_eq_getElem?_getD, List.getElem?_set_self h]

theorem getD_replicate {α : Type _} (n i : Nat) (a d : α) (h : i < n) :
    (List.replicate n a).getD i d = a := by
  simp [List.getD_eq_getElem?_getD, List.getElem?_replicate, h]

theorem getElem_fours (i : Nat) (h : i < 4) :
    ([[], [], [], []] : List Chain)[i] = [] := by
  interval_cases i <;> rfl

theorem partitionIndex_lt (hk : Key → Nat) (k : Key) :
    partitionIndex hk k < 16 := by
  have hlt : hash32 hk k < 2 ^ 32 := Nat.mod_lt _ (by norm_num)
  apply Nat.div_lt_of_lt_mul
  norm_num at hlt ⊢
  omega

/-! ## The concrete scenario, one operation at a time -/

theorem newMemTable_eq_oneBusy (p : Nat) :
    newMemTable = oneBusyTable p newTablePartition := by
  simp only [newMemTable, oneBusyTable, numPartitions, List.set_replicate_self]

theorem lift_put (hk : Key → Nat) (sq : Nat) (v : Option ValuePointer)
    (r : Option ValuePointer × Bool) (P P' : Partition)
    (h : Partition.put (fun k => hash32 hk k) akey sq v (hash32 hk akey) P =
      some (r, P')) :
    (oneBusyTable (partitionIndex hk akey) P).Put hk akey sq v =
      some (r, oneBusyTable (partitionIndex hk akey) P') := by
  have hp := partitionIndex_lt hk akey
  simp only [MemTable.Put, oneBusyTable]
  rw [getD_set_self _ _ _ _ (by simpa using hp), h]
  simp [List.set_set]

theorem lift_remove (hk : Key → Nat) (sq : Nat)
    (r : Option ValuePointer) (P P' : Partition)
    (h : Partition.remove (fun k => hash32 hk k) akey sq (hash32 hk akey) P =
      (r, P')) :
    (oneBusyTable (partitionIndex hk akey) P).Remove hk akey sq =
      (r, oneBusyTable (partitionIndex hk akey) P') := by
  have hp := partitionIndex_lt hk akey
  simp only [MemTable.Remove, oneBusyTable]
  rw [getD_set_self _ _ _ _ (by simpa using hp), h]
  simp [List.set_set]

theorem lift_get (hk : Key → Nat) (r : Option ValuePointer × Nat)
    (P : Partition)
    (h : Partition.get P akey (hash32 hk akey) = r) :
    (oneBusyTable (partitionIndex hk akey) P).Get hk akey = r := by
  have hp := partitionIndex_lt hk akey
  simp only [MemTable.Get, oneBusyTable]
  rw [getD_set_self _ _ _ _ (by simpa using hp), h]

theorem scen_step1 (hk : Key → Nat) (h : Nat) :
    Partition.put hk akey 1 (some 1) h newTablePartition =
      some ((none, true), scenPart h 1 (some 1) 1) := by
  have h4 : h % 4 < 4 := Nat.mod_lt _ (by norm_num)
  simp [Partition.put, Partition.resizeStep, Partition.findNode, newTablePartition,
    initialBucketSize, getChain, setChain, findInChain, scenPart,
    Partition.resizeIfNeeded, getD_set_self, getElem_fours, List.set_set, h4]

theorem scen_step2 (hk : Key → Nat) (h : Nat) :
    Partition.put hk akey 1 (some 2) h (scenPart h 1 (some 1) 1) =
      some ((some 1, true), scenPart h 1 (some 2) 1) := by
  have h4 : h % 4 < 4 := Nat.mod_lt _ (by norm_num)
  simp [Partition.put, Partition.resizeStep, Partition.findNode, scenPart,
    getChain, setChain, findInChain, Partition.setNodeAt,
    Partition.resizeIfNeeded, getD_set_self, getElem_fours, List.set_set, h4]

theorem scen_get2 (h : Nat) :
    Partition.get (scenPart h 1 (some 2) 1) akey h = (some 2, 1) := by
  have h4 : h % 4 < 4 := Nat.mod_lt _ (by norm_num)
  simp [Partition.get, Partition.findNode, scenPart, getChain, setChain,
    findInChain, getD_set_self, getElem_fours, h4]

theorem scen_step3 (hk : Key → Nat) (h : Nat) :
    Partition.remove hk akey 2 h (scenPart h 1 (some 2) 1) =
      (some 2, scenPart h 1 none 0) := by
  have h4 : h % 4 < 4 := Nat.mod_lt _ (by norm_num)
  simp [Partition.remove, Partition.resizeStep, Partition.findNode, scenPart,
    getChain, setChain, findInChain, Partition.setNodeAt, getD_set_self,
    getElem_fours, List.set_set, h4]

theorem scen_get3 (h : Nat) :
    Partition.get (scenPart h 1 none 0) akey h = (none, 1) := by
  have h4 : h % 4 < 4 := Nat.mod_lt _ (by norm_num)
  simp [Partition.get, Partition.findNode, scenPart, getChain, setChain,
    findInChain, getD_set_self, getElem_fours, h4]

theorem scen_step4 (hk : Key → Nat) (h : Nat) :
    Partition.put hk akey 3 (some 3) h (scenPart h 1 none 0) =
      some ((none, true), scenPart h 3 (some 3) 0) := by
  have h4 : h % 4 < 4 := Nat.mod_lt _ (by norm_num)
  simp [Partition.put, Partition.resizeStep, Partition.findNode, scenPart,
    getChain, setChain, findInChain, Partition.setNodeAt,
    Partition.resizeIfNeeded, getD_set_self, getElem_fours, List.set_set, h4]

theorem scen_get4 (h : Nat) :
    Partition.get (scenPart h 3 (some 3) 0) akey h = (some 3, 3) := by
  have h4 : h % 4 < 4 := Nat.mod_lt _ (by norm_num)
  simp [Partition.get, Partition.findNode, scenPart, getChain, setChain,
    findInChain, getD_set_self, getElem_fours, h4]

/-- C2: starting from an empty table, the operation sequence
`put("a",1,P1); put("a",1,P2); get("a"); remove("a",2); get("a");
put("a",3,P3); get("a")` returns, in order: `(absent, true)`, `(P1, true)`,
`(P2, 1)`, `P2`, `(absent, 1)`, `(absent, true)`, `(P3, 3)` — for every hash
function. -/
theorem concrete_scenario_matches_spec (hk : Key → Nat) :
    scenarioOutputs hk =
      some ((none, true), (some 1, true), (some 2, 1), some 2, (none, 1),
        (none, true), (some 3, 3)) := by
  simp only [scenarioOutputs, newMemTable_eq_oneBusy (partitionIndex hk akey),
    lift_put hk 1 (some 1) _ _ _ (scen_step1 _ _),
    lift_put hk 1 (some 2) _ _ _ (scen_step2 _ _),
    lift_get hk _ _ (scen_get2 _),
    lift_remove hk 2 _ _ _ (scen_step3 _ _),
    lift_get hk _ _ (scen_get3 _),
    lift_put hk 3 (some 3) _ _ _ (scen_step4 _ _),
    lift_get hk _ _ (scen_get4 _),
    Option.some_bind, Option.map_some, Option.map_some']

/-! ## Claim C1: put of an absent key with an absent value pointer -/

/-- C1: for every key that the lookup does not find (in particular every key
absent from the table) and every sequence number, `put` with an absent value
pointer panics — the source reaches `t.buckets[-1]` — instead of creating
and unlinking an entry and returning `(absent, true)` as the spec states.
`none` is the model of the panic. -/
theorem put_absent_key_nil_pointer_panics (hashKey : Key → Nat) (key : Key)
    (sq : Nat) (hash : Nat) (t : Partition)
    (h : (t.resizeStep hashKey).findNode key hash = none) :
    Partition.put hashKey key sq none hash t = none := by
  simp [Partition.put, h]

/-- Witness for `put_absent_key_nil_pointer_panics`: `put("a", 1, absent)`
on a fresh partition crashes. -/
theorem put_absent_key_nil_pointer_panics_witness :
    Partition.put exampleHash akey 1 none (exampleHash akey)
      newTablePartition = none :=
  put_absent_key_nil_pointer_panics exampleHash akey 1 (exampleHash akey)
    newTablePartition (by decide)

/-! ## Claim C3: get on unknown versus tombstoned keys -/

/-- C3 counterexample: after `put("a",1,P1); remove("a",2)` the key is
tombstoned, and `get("a")` returns the stored sequence number 1, not 0 —
so get does not return a zero sequence number whenever the key is unknown
or tombstoned. -/
theorem get_tombstoned_seq_nonzero_counterexample :
    ((newMemTable.Put exampleHash akey 1 (some 5)).map
        (fun r => (r.2.Remove exampleHash akey 2).2.Get exampleHash akey)) =
      some (none, 1) ∧
    ((newMemTable.Put exampleHash akey 1 (some 5)).map
        (fun r => (r.2.Remove exampleHash akey 2).2.Get exampleHash akey)) ≠
      some (none, 0) := by
  constructor
  · decide
  · decide

/-- C3 amended: `get` returns `(absent, 0)` when the key is unknown to the
table; for a tombstoned entry it returns an absent pointer together with the
entry's stored sequence number, which may be nonzero. -/
theorem get_unknown_or_tombstoned_amended (t : Partition) (key : Key)
    (hash : Nat) :
    (t.findNode key hash = none → t.get key hash = (none, 0)) ∧
    (∀ arr pos nd, t.findNode key hash = some (arr, pos, nd) → nd.ptr = none →
      t.get key hash = (none, nd.seqNumber)) := by
  constructor
  · intro h
    simp [Partition.get, h]
  · intro arr pos nd h hp
    simp [Partition.get, h, hp]

/-- Witness for `get_unknown_or_tombstoned_amended`: a fresh partition does
not contain `"a"`, and get returns `(absent, 0)`. -/
theorem get_unknown_or_tombstoned_amended_witness :
    Partition.get newTablePartition akey (exampleHash akey) = (none, 0) :=
  (get_unknown_or_tombstoned_amended newTablePartition akey
    (exampleHash akey)).1 (by decide)

/-! ## Claim C4: liveCount bookkeeping -/

/-- C4: the `nElements` counter drifts from the number of live entries.
After `put(k,1,P); put(k,2,absent)` the single entry has been unlinked, so no
live entry remains, yet `Size()` still reports 1: the nil-pointer unlink path
of put does not decrement `nElements`.  (Symmetrically, a put that
resurrects a tombstoned entry does not increment it.) -/
theorem size_drifts_from_live_count :
    ((newMemTable.Put exampleHash [1] 1 (some 9)).bind
        (fun r => r.2.Put exampleHash [1] 2 none)).map
        (fun r => (r.2.Size, r.2.totalLive)) = some (1, 0) := by
  decide

/-! ## Claim C6 counterexample: fresh inserts land in incoming -/

/-- C6 counterexample: a reachable in-flight state in which an entry of an
active bucket index not yet passed by the cursor lives in the incoming
array (it was inserted during the resize), violating the claimed
exclusivity. -/
theorem resize_exclusivity_counterexample :
    (runOps exampleHash opsFreshInsertDuringResize newTablePartition).map
      (resizeExclusivityHolds exampleHash) = some false := by
  decide

/-! ## Claim C7: the resize trigger conditions -/

/-- C7: when no resize is in flight (and the bucket array is nonempty, true
of every reachable state), the trigger check begins a grow with a
doubled-size incoming array iff `nodeCount > 5 * bucketCount`, begins a
shrink with a halved-size incoming array iff `nodeCount < bucketCount / 4`
and `nodeCount > 4`, does nothing otherwise, and the two conditions are
mutually exclusive. -/
theorem resize_trigger_iff (t : Partition) (hflag : t.resizeInProgress = false)
    (hlen : 0 < t.buckets0.length) :
    ((t.resizeIfNeeded.resizeInProgress = true ∧
        t.resizeIfNeeded.buckets1 =
          some (List.replicate (2 * t.buckets0.length) []))
      ↔ t.nNodes > 5 * (t.buckets0.length : Int)) ∧
    ((t.resizeIfNeeded.resizeInProgress = true ∧
        t.resizeIfNeeded.buckets1 =
          some (List.replicate (t.buckets0.length / 2) []))
      ↔ (t.nNodes < (t.buckets0.length : Int) / 4 ∧ t.nNodes > 4)) ∧
    ((¬ t.nNodes > 5 * (t.buckets0.length : Int)) ∧
      ¬(t.nNodes < (t.buckets0.length : Int) / 4 ∧ t.nNodes > 4) →
      t.resizeIfNeeded = t) ∧
    ¬(t.nNodes > 5 * (t.buckets0.length : Int) ∧
      t.nNodes < (t.buckets0.length : Int) / 4 ∧ t.nNodes > 4) := by
  have hrep : ∀ n m : Nat,
      (List.replicate n ([] : Chain) = List.replicate m []) → n = m := by
    intro n m he
    have := congrArg List.length he
    simpa using this
  have hne : ¬(2 * t.buckets0.length = t.buckets0.length / 2) := by omega
  have h4 : ((initialBucketSize : Nat) : Int) = 4 := by
    norm_num [initialBucketSize]
  rw [Partition.resizeIfNeeded,
    if_neg (show ¬t.resizeInProgress = true by simp [hflag])]
  simp only [h4]
  by_cases hg : t.nNodes > 5 * (t.buckets0.length : Int)
  · have hns : ¬(t.nNodes < (t.buckets0.length : Int) / 4 ∧ t.nNodes > 4) := by
      omega
    rw [if_pos hg]
    refine ⟨by simp [hg], ?_, ?_, ?_⟩
    · rw [iff_false_intro hns]
      simp only [iff_false, not_and, true_and]
      intro he
      exact absurd (hrep _ _ (Option.some.inj he)) hne
    · intro hc
      exact absurd hg hc.1
    · intro hc
      exact hns hc.2
  · rw [if_neg hg]
    by_cases hs : t.nNodes < (t.buckets0.length : Int) / 4 ∧ t.nNodes > 4
    · rw [if_pos hs]
      refine ⟨?_, by simp [hs], ?_, ?_⟩
      · rw [iff_false_intro hg]
        simp only [iff_false, not_and, true_and]
        intro he
        exact absurd (hrep _ _ (Option.some.inj he)).symm hne
      · intro hc
        exact absurd hs hc.2
      · intro hc
        exact hg hc.1
    · rw [if_neg hs]
      refine ⟨by simp [hg, hflag], by simp [hs, hflag], fun _ => rfl, ?_⟩
      intro hc
      exact hg hc.1

/-- Witness for `resize_trigger_iff` at the fresh partition (4 buckets,
0 nodes): neither a grow nor a shrink begins. -/
theorem resize_trigger_iff_witness :
    ((newTablePartition.resizeIfNeeded.resizeInProgress = true ∧
        newTablePartition.resizeIfNeeded.buckets1 =
          some (List.replicate (2 * newTablePartition.buckets0.length) []))
      ↔ newTablePartition.nNodes >
          5 * (newTablePartition.buckets0.length : Int)) ∧
    ((newTablePartition.resizeIfNeeded.resizeInProgress = true ∧
        newTablePartition.resizeIfNeeded.buckets1 =
          some (List.replicate (newTablePartition.buckets0.length / 2) []))
      ↔ (newTablePartition.nNodes <
            (newTablePartition.buckets0.length : Int) / 4 ∧
          newTablePartition.nNodes > 4)) ∧
    ((¬ newTablePartition.nNodes >
        5 * (newTablePartition.buckets0.length : Int)) ∧
      ¬(newTablePartition.nNodes <
          (newTablePartition.buckets0.length : Int) / 4 ∧
        newTablePartition.nNodes > 4) →
      newTablePartition.resizeIfNeeded = newTablePartition) ∧
    ¬(newTablePartition.nNodes >
        5 * (newTablePartition.buckets0.length : Int) ∧
      newTablePartition.nNodes <
        (newTablePartition.buckets0.length : Int) / 4 ∧
      newTablePartition.nNodes > 4) :=
  resize_trigger_iff newTablePartition rfl (by decide)

/-! ## Claim C8: stale puts -/

/-- C8: if the key is stored (at lookup time, i.e. after put's initial
resize step) with a sequence number strictly greater than the incoming one,
`put` makes no entry mutation: it returns the caller's own value pointer
with `applied = false`, only runs the trigger check, and a subsequent get
still sees the stored entry's pointer and sequence number.  The hypothesis
`hwf` (an allocated incoming array implies the resize flag) holds in every
reachable state. -/
theorem stale_put_echoes_and_preserves (hashKey : Key → Nat) (t : Partition)
    (key : Key) (sq : Nat) (v : Option ValuePointer) (hash : Nat)
    (arr pos : Nat) (nd : Node)
    (hwf : (t.resizeStep hashKey).resizeInProgress = false →
      (t.resizeStep hashKey).buckets1 = none)
    (hfind : (t.resizeStep hashKey).findNode key hash = some (arr, pos, nd))
    (hstale : sq < nd.seqNumber) :
    Partition.put hashKey key sq v hash t =
      some ((v, false), (t.resizeStep hashKey).resizeIfNeeded) ∧
    Partition.get ((t.resizeStep hashKey).resizeIfNeeded) key hash =
      (nd.ptr, nd.seqNumber) := by
  have hnge : ¬(sq ≥ nd.seqNumber) := by omega
  constructor
  · simp only [Partition.put]
    rw [hfind]
    dsimp only
    rw [if_neg hnge]
  · set t1 := t.resizeStep hashKey with ht1
    by_cases hfl : t1.resizeInProgress = true
    · rw [Partition.resizeIfNeeded, if_pos hfl]
      simp [Partition.get, hfind]
    · have hb1 : t1.buckets1 = none := hwf (by simpa using hfl)
      have hprobe : findInChain key
          (getChain t1.buckets0 (hash % t1.buckets0.length)) =
            some (pos, nd) ∧ arr = 0 := by
        rw [Partition.findNode] at hfind
        rcases hp : findInChain key
            (getChain t1.buckets0 (hash % t1.buckets0.length)) with _ | pn
        · rw [hp, hb1] at hfind
          cases hfind
        · rw [hp] at hfind
          dsimp only at hfind
          injection hfind with h1
          obtain ⟨h2, h3, h4⟩ := Prod.mk.inj h1
          exact ⟨by simp, h2.symm⟩
      rw [Partition.resizeIfNeeded, if_neg hfl]
      dsimp only
      split
      · simp [Partition.get, Partition.findNode, hprobe.1]
      · split
        · simp [Partition.get, Partition.findNode, hprobe.1]
        · simp [Partition.get, hfind]

/-- Witness for `stale_put_echoes_and_preserves`: with `"a"` stored at
sequence 5, a put at sequence 3 echoes the caller's pointer, reports
`applied = false`, and the stored entry is untouched. -/
theorem stale_put_echoes_and_preserves_witness :
    Partition.put exampleHash akey 3 (some 7) (exampleHash akey)
        (scenPart 97 5 (some 9) 1) =
      some ((some 7, false),
        ((scenPart 97 5 (some 9) 1).resizeStep exampleHash).resizeIfNeeded) ∧
    Partition.get
        (((scenPart 97 5 (some 9) 1).resizeStep exampleHash).resizeIfNeeded)
        akey (exampleHash akey) =
      ((⟨5, akey, some 9⟩ : Node).ptr, (⟨5, akey, some 9⟩ : Node).seqNumber) :=
  stale_put_echoes_and_preserves exampleHash (scenPart 97 5 (some 9) 1)
    akey 3 (some 7) (exampleHash akey) 0 0 ⟨5, akey, some 9⟩
    (by decide) (by decide) (by decide)

/-! ## Claim C9: when the resize trigger check runs -/

set_option maxRecDepth 100000 in
/-- C9 counterexample: a reachable state (448 operations from a fresh
partition, ending with a shrink from 64 to 32 buckets in flight at cursor
62) on which one more `remove` completes the resize and leaves the shrink
condition satisfied with no resize in flight — the trigger check did not
run after that remove. -/
theorem remove_skips_trigger_counterexample :
    (runOps exampleHash opsShrinkAlmostDone newTablePartition).map
      (fun t => triggerRanAfter
        (Partition.remove exampleHash [250] 1 (exampleHash [250]) t).2) =
      some false := by
  decide

theorem remove_preserves_resize_flag (hashKey : Key → Nat) (key : Key)
    (sq : Nat) (hash : Nat) (t : Partition) :
    (Partition.remove hashKey key sq hash t).2.resizeInProgress =
      (t.resizeStep hashKey).resizeInProgress := by
  have hflag : ∀ (t' : Partition) arr hash pos nd,
      (t'.setNodeAt arr hash pos nd).resizeInProgress = t'.resizeInProgress := by
    intro t' arr hash pos nd
    unfold Partition.setNodeAt
    split <;> rfl
  simp only [Partition.remove]
  cases hf : (t.resizeStep hashKey).findNode key hash with
  | none => simp [hf]
  | some x =>
    obtain ⟨arr, pos, nd⟩ := x
    by_cases hsq : sq ≥ nd.seqNumber
    · simp only [hf, hsq, if_pos, ite_true]
      split <;> simp [hflag]
    · simp [hf, hsq]

theorem resizeIfNeeded_flag_false (s : Partition)
    (h : (s.resizeIfNeeded).resizeInProgress = false) :
    s.resizeIfNeeded = s ∧ growCondB (s.resizeIfNeeded) = false ∧
      shrinkCondB (s.resizeIfNeeded) = false := by
  by_cases h1 : s.resizeInProgress = true
  · rw [Partition.resizeIfNeeded, if_pos h1] at h
    exact absurd h (by simp [h1])
  · by_cases hg : s.nNodes > 5 * (s.buckets0.length : Int)
    · rw [Partition.resizeIfNeeded, if_neg h1, if_pos hg] at h
      simp at h
    · by_cases hs : s.nNodes < (s.buckets0.length : Int) / 4 ∧
        s.nNodes > (initialBucketSize : Int)
      · rw [Partition.resizeIfNeeded, if_neg h1, if_neg (by exact hg),
          if_pos hs] at h
        simp at h
      · have heq : s.resizeIfNeeded = s := by
          rw [Partition.resizeIfNeeded, if_neg h1, if_neg (by exact hg),
            if_neg hs]
        refine ⟨heq, ?_, ?_⟩
        · rw [heq]
          simp [growCondB]
          omega
        · rw [heq]
          simp [shrinkCondB, initialBucketSize] at hs ⊢
          omega

theorem put_trigger_ran (hashKey : Key → Nat) (key : Key) (sq : Nat)
    (v : Option ValuePointer) (hash : Nat) (t : Partition)
    (r : Option ValuePointer × Bool) (t' : Partition)
    (h : Partition.put hashKey key sq v hash t = some (r, t'))
    (hfl : t'.resizeInProgress = false) :
    growCondB t' = false ∧ shrinkCondB t' = false := by
  have main : ∀ s : Partition, t' = s.resizeIfNeeded →
      growCondB t' = false ∧ shrinkCondB t' = false := by
    intro s hs
    subst hs
    exact (resizeIfNeeded_flag_false s hfl).2
  simp only [Partition.put] at h
  rcases hf : (t.resizeStep hashKey).findNode key hash with _ | ⟨arr, pos, nd⟩ <;>
    rw [hf] at h <;> dsimp only at h
  · by_cases hv : v = none
    · rw [if_pos hv] at h
      cases h
    · rw [if_neg hv] at h
      injection h with h'
      exact main _ (congrArg Prod.snd h').symm
  · by_cases hsq : sq ≥ nd.seqNumber
    · rw [if_pos hsq] at h
      by_cases hv : v = none
      · rw [if_pos hv] at h
        injection h with h'
        exact main _ (congrArg Prod.snd h').symm
      · rw [if_neg hv] at h
        injection h with h'
        exact main _ (congrArg Prod.snd h').symm
    · rw [if_neg hsq] at h
      injection h with h'
      exact main _ (congrArg Prod.snd h').symm

/-- C9 amended: the trigger check runs after every put whenever no resize is
in flight — a put that ends with no resize in flight ends in a state where
neither trigger condition holds — but `remove` never runs it: a remove's
resize-in-flight flag is exactly the one left by its initial resize step,
even when a trigger condition holds afterwards. -/
theorem trigger_runs_after_put_only_amended (hashKey : Key → Nat) (key : Key)
    (sq : Nat) (hash : Nat) (t : Partition) :
    ((Partition.remove hashKey key sq hash t).2.resizeInProgress =
      (t.resizeStep hashKey).resizeInProgress) ∧
    (∀ v r t', Partition.put hashKey key sq v hash t = some (r, t') →
      t'.resizeInProgress = false →
      growCondB t' = false ∧ shrinkCondB t' = false) :=
  ⟨remove_preserves_resize_flag hashKey key sq hash t,
    fun v r t' h hfl => put_trigger_ran hashKey key sq v hash t r t' h hfl⟩

/-- Witness for `trigger_runs_after_put_only_amended`: concrete instances of
both conjuncts on a fresh partition. -/
theorem trigger_runs_after_put_only_amended_witness :
    ((Partition.remove exampleHash akey 1 (exampleHash akey)
        newTablePartition).2.resizeInProgress =
      (newTablePartition.resizeStep exampleHash).resizeInProgress) ∧
    (growCondB (scenPart 97 1 (some 1) 1) = false ∧
      shrinkCondB (scenPart 97 1 (some 1) 1) = false) :=
  ⟨(trigger_runs_after_put_only_amended exampleHash akey 1 (exampleHash akey)
      newTablePartition).1,
    (trigger_runs_after_put_only_amended exampleHash akey 1 (exampleHash akey)
      newTablePartition).2 (some 1) (none, true) (scenPart 97 1 (some 1) 1)
      (by decide) (by decide)⟩

theorem getD_set_ne {α : Type _} (l : List α) (i j : Nat) (a d : α)
    (h : i ≠ j) : (l.set i a).getD j d = l.getD j d := by
  simp [List.getD_eq_getElem?_getD, List.getElem?_set_ne h]

theorem getChain_setChain_ne (bs : List Chain) (i j : Nat) (c : Chain)
    (h : i ≠ j) : getChain (setChain bs i c) j = getChain bs j :=
  getD_set_ne bs i j c [] h

theorem getChain_setChain_self (bs : List Chain) (i : Nat) (c : Chain)
    (h : i < bs.length) : getChain (setChain bs i c) i = c :=
  getD_set_self bs i c [] h

theorem length_setChain (bs : List Chain) (i : Nat) (c : Chain) :
    (setChain bs i c).length = bs.length := List.length_set ..

theorem getChain_eq_getElem (bs : List Chain) (j : Nat) (h : j < bs.length) :
    getChain bs j = bs[j] := by
  simp [getChain, List.getD_eq_getElem?_getD, List.getElem?_eq_getElem h]

theorem flatten_parts (bs : List Chain) (j : Nat) (h : j < bs.length) :
    bs.flatten = (bs.take j).flatten ++ getChain bs j ++ (bs.drop (j + 1)).flatten := by
  induction bs generalizing j with
  | nil => simp at h
  | cons b rest ih =>
    cases j with
    | zero => simp [getChain, List.getD]
    | succ j =>
      have hj : j < rest.length := by simpa using h
      have hg : getChain (b :: rest) (j + 1) = getChain rest j := by
        simp [getChain, List.getD]
      simp only [List.flatten_cons, List.take_succ_cons, List.drop_succ_cons, hg]
      rw [ih j hj]
      simp [List.append_assoc]

theorem flatten_set (bs : List Chain) (j : Nat) (c : Chain)
    (h : j < bs.length) :
    (bs.set j c).flatten =
      (bs.take j).flatten ++ c ++ (bs.drop (j + 1)).flatten := by
  induction bs generalizing j with
  | nil => simp at h
  | cons b rest ih =>
    cases j with
    | zero => simp
    | succ j =>
      have hj : j < rest.length := by simpa using h
      simp only [List.set_cons_succ, List.flatten_cons, List.take_succ_cons,
        List.drop_succ_cons]
      rw [ih j hj]
      simp [List.append_assoc]

theorem mem_flatten_iff_getChain (bs : List Chain) (nd : Node) :
    nd ∈ bs.flatten ↔ ∃ j, j < bs.length ∧ nd ∈ getChain bs j := by
  rw [List.mem_flatten]
  constructor
  · rintro ⟨c, hc, hnd⟩
    obtain ⟨j, hj, he⟩ := List.mem_iff_getElem.mp hc
    exact ⟨j, hj, by rw [getChain_eq_getElem _ _ hj, he]; exact hnd⟩
  · rintro ⟨j, hj, hnd⟩
    exact ⟨bs[j], List.getElem_mem .., by rwa [getChain_eq_getElem _ _ hj] at hnd⟩

theorem findInChain_none_iff (key : Key) (c : Chain) :
    findInChain key c = none ↔ ∀ nd ∈ c, nd.key ≠ key := by
  induction c with
  | nil => simp [findInChain]
  | cons nd rest ih =>
    by_cases h : nd.key = key
    · simp [findInChain, h]
    · simp [findInChain, h, ih]

theorem findInChain_some_decomp (key : Key) (c : Chain) (pos : Nat)
    (nd : Node) (h : findInChain key c = some (pos, nd)) :
    nd.key = key ∧ ∃ c1 c2, c = c1 ++ nd :: c2 ∧ c1.length = pos := by
  induction c generalizing pos with
  | nil => simp [findInChain] at h
  | cons hd rest ih =>
    by_cases hk : hd.key = key
    · rw [findInChain, if_pos hk] at h
      injection h with h'
      obtain ⟨h1, h2⟩ := Prod.mk.inj h'
      exact ⟨h2 ▸ hk, [], rest, by rw [h2]; rfl, by rw [← h1]; rfl⟩
    · rw [findInChain, if_neg hk] at h
      cases hr : findInChain key rest with
      | none => rw [hr] at h; cases h
      | some pn =>
        rw [hr] at h
        injection h with h'
        obtain ⟨h1, h2⟩ := Prod.mk.inj h'
        obtain ⟨hkey, c1, c2, hdec, hlen⟩ := ih pn.1 (by
          rw [hr]
          exact congrArg some (Prod.ext rfl h2))
        exact ⟨hkey, hd :: c1, c2, by rw [hdec]; rfl, by simp [hlen, ← h1]⟩

theorem length_migrateChain (hashKey : Key → Nat) (c : Chain)
    (bs : List Chain) : (migrateChain hashKey c bs).length = bs.length := by
  induction c generalizing bs with
  | nil => rfl
  | cons nd rest ih =>
    have hstep : migrateChain hashKey (nd :: rest) bs =
        migrateChain hashKey rest
          (setChain bs (hashKey nd.key % bs.length)
            (nd :: getChain bs (hashKey nd.key % bs.length))) := rfl
    rw [hstep, ih, length_setChain]

theorem migrate_flatten_perm (hashKey : Key → Nat) (c : Chain)
    (bs : List Chain) (h : 0 < bs.length) :
    (migrateChain hashKey c bs).flatten.Perm (c ++ bs.flatten) := by
  induction c generalizing bs with
  | nil => simp [migrateChain]
  | cons nd rest ih =>
    have hj : hashKey nd.key % bs.length < bs.length := Nat.mod_lt _ h
    have hstep : (migrateChain hashKey (nd :: rest) bs) =
        migrateChain hashKey rest
          (setChain bs (hashKey nd.key % bs.length)
            (nd :: getChain bs (hashKey nd.key % bs.length))) := rfl
    rw [hstep]
    have hlen' : 0 < (setChain bs (hashKey nd.key % bs.length)
        (nd :: getChain bs (hashKey nd.key % bs.length))).length := by
      rw [length_setChain]
      exact h
    refine (ih _ hlen').trans ?_
    have hfl : (setChain bs (hashKey nd.key % bs.length)
        (nd :: getChain bs (hashKey nd.key % bs.length))).flatten.Perm
        (nd :: bs.flatten) := by
      rw [setChain, flatten_set _ _ _ hj,
        flatten_parts bs (hashKey nd.key % bs.length) hj]
      simp [List.append_assoc]
    exact ((hfl.append_left rest).trans List.perm_middle).trans (by simp)

theorem migrate_placed (hashKey : Key → Nat) (c : Chain) (bs : List Chain)
    (h : 0 < bs.length) (hpl : placedIn hashKey bs) :
    placedIn hashKey (migrateChain hashKey c bs) := by
  induction c generalizing bs with
  | nil => exact hpl
  | cons nd rest ih =>
    have hj : hashKey nd.key % bs.length < bs.length := Nat.mod_lt _ h
    have hstep : (migrateChain hashKey (nd :: rest) bs) =
        migrateChain hashKey rest
          (setChain bs (hashKey nd.key % bs.length)
            (nd :: getChain bs (hashKey nd.key % bs.length))) := rfl
    rw [hstep]
    refine ih _ (by rw [length_setChain]; exact h) ?_
    intro j' nd' hnd'
    rw [length_setChain]
    by_cases hjj : hashKey nd.key % bs.length = j'
    · rw [← hjj] at hnd' ⊢
      rw [getChain_setChain_self _ _ _ hj] at hnd'
      rcases List.mem_cons.mp hnd' with h1 | h1
      · rw [h1]
      · exact hpl _ nd' h1
    · rw [getChain_setChain_ne _ _ _ _ hjj] at hnd'
      exact hpl j' nd' hnd'

theorem allNodes_eq (t : Partition) :
    allNodes t = t.buckets0.flatten ++ (t.buckets1.getD []).flatten := by
  simp [allNodes, allChains, List.flatten_append]

theorem take_flatten_nil (bs : List Chain) (j : Nat)
    (h : ∀ i : Nat, i < j → getChain bs i = []) : (bs.take j).flatten = [] := by
  induction bs generalizing j with
  | nil => simp
  | cons b rest ih =>
    cases j with
    | zero => simp
    | succ j =>
      have hb : b = [] := h 0 (Nat.succ_pos j)
      have hr : (rest.take j).flatten = [] := by
        refine ih j ?_
        intro i hi
        exact h (i + 1) (by omega)
      simp [hb, hr]

theorem append_shuffle_perm (T D c B : List Node) :
    ((T ++ D) ++ (c ++ B)).Perm ((T ++ c ++ D) ++ B) := by
  simp only [List.append_assoc]
  refine List.Perm.append_left T ?_
  simpa [List.append_assoc] using
    (@List.perm_append_comm _ D c).append_right B

theorem resizeStep_inv_perm (hashKey : Key → Nat) (t : Partition)
    (hInv : PartInv hashKey t) :
    PartInv hashKey (t.resizeStep hashKey) ∧
      (allNodes (t.resizeStep hashKey)).Perm (allNodes t) := by
  by_cases hfl : t.resizeInProgress = true
  case neg =>
    rw [Partition.resizeStep, if_neg hfl]
    exact ⟨hInv, List.Perm.refl _⟩
  case pos =>
  obtain ⟨b1, hb1⟩ : ∃ b1, t.buckets1 = some b1 := by
    have := hInv.flag_iff
    rw [hfl] at this
    exact Option.isSome_iff_exists.mp this
  have hlb := hInv.cursor_lb hfl
  have hub := hInv.cursor_ub hfl
  have hlen0 := hInv.len0_pos
  have hlen1 : 0 < b1.length := hInv.len1_pos b1 hb1
  set i : Nat := (t.nextResizeIndex + 1).toNat with hi
  have hicast : (i : Int) = t.nextResizeIndex + 1 := Int.toNat_of_nonneg (by omega)
  have hilt : i < t.buckets0.length := by omega
  have hres : t.resizeStep hashKey =
      (if i = t.buckets0.length - 1 then
        Partition.completeResize
          { t with
            nextResizeIndex := t.nextResizeIndex + 1
            buckets0 := setChain t.buckets0 i []
            buckets1 := some (migrateChain hashKey (getChain t.buckets0 i)
              (t.buckets1.getD [])) }
      else
        { t with
          nextResizeIndex := t.nextResizeIndex + 1
          buckets0 := setChain t.buckets0 i []
          buckets1 := some (migrateChain hashKey (getChain t.buckets0 i)
            (t.buckets1.getD [])) }) := by
    rw [Partition.resizeStep, if_pos hfl]
  have hgd : t.buckets1.getD [] = b1 := by rw [hb1]; rfl
  rw [hgd] at hres
  set c := getChain t.buckets0 i with hc
  set b1' := migrateChain hashKey c b1 with hb1'
  -- the active array with bucket i emptied, and its flatten decomposition
  have hflat0 : t.buckets0.flatten =
      (t.buckets0.take i).flatten ++ c ++ (t.buckets0.drop (i + 1)).flatten :=
    flatten_parts _ _ hilt
  have hflatset : (setChain t.buckets0 i []).flatten =
      (t.buckets0.take i).flatten ++ (t.buckets0.drop (i + 1)).flatten := by
    rw [setChain, flatten_set _ _ _ hilt]
    simp
  have hperm1' : b1'.flatten.Perm (c ++ b1.flatten) :=
    migrate_flatten_perm hashKey c b1 hlen1
  have hplaced1' : placedIn hashKey b1' :=
    migrate_placed hashKey c b1 hlen1 (hInv.placed1 b1 hb1)
  have hlen1' : 0 < b1'.length := by
    rw [hb1', length_migrateChain]
    exact hlen1
  by_cases hlast : i = t.buckets0.length - 1
  · rw [if_pos hlast] at hres
    -- the take part is empty: all buckets below i are migrated
    have htake : (t.buckets0.take i).flatten = [] := by
      refine take_flatten_nil _ _ ?_
      intro i' hi'
      exact hInv.emptied hfl i' (by omega)
    have hdrop : (t.buckets0.drop (i + 1)).flatten = [] := by
      have : t.buckets0.drop (i + 1) = [] := by
        apply List.drop_eq_nil_of_le
        omega
      rw [this]
      rfl
    have hall : allNodes t = c ++ b1.flatten := by
      rw [allNodes_eq, hgd, hflat0, htake, hdrop]
      simp
    have hall' : allNodes (t.resizeStep hashKey) = b1'.flatten := by
      rw [hres]
      rw [allNodes_eq]
      simp [Partition.completeResize]
    have hperm : (allNodes (t.resizeStep hashKey)).Perm (allNodes t) := by
      rw [hall, hall']
      exact hperm1'
    refine ⟨?_, hperm⟩
    rw [hres]
    refine
      { len0_pos := ?_
        flag_iff := rfl
        len1_pos := by intro b hb; cases hb
        cursor_idle := fun _ => rfl
        cursor_lb := by intro h; cases h
        cursor_ub := by intro h; cases h
        emptied := by intro h; cases h
        placed0 := ?_
        placed1 := by intro b hb; cases hb
        nodup := ?_ }
    · simpa [Partition.completeResize] using hlen1'
    · simpa [Partition.completeResize] using hplaced1'
    · have : keysOf (t.resizeStep hashKey) = (allNodes (t.resizeStep hashKey)).map Node.key := rfl
      rw [hres] at this
      rw [this, ← hres]
      have hk : ((allNodes (t.resizeStep hashKey)).map Node.key).Perm (keysOf t) :=
        hperm.map Node.key
      exact hk.nodup_iff.mpr hInv.nodup
  · rw [if_neg hlast] at hres
    have hilt2 : (i : Int) ≤ (t.buckets0.length : Int) - 2 := by omega
    have hall' : allNodes (t.resizeStep hashKey) =
        ((t.buckets0.take i).flatten ++ (t.buckets0.drop (i + 1)).flatten) ++
          b1'.flatten := by
      rw [hres, allNodes_eq]
      show (setChain t.buckets0 i []).flatten ++ b1'.flatten = _
      rw [hflatset]
    have hall : allNodes t =
        ((t.buckets0.take i).flatten ++ c ++ (t.buckets0.drop (i + 1)).flatten) ++
          b1.flatten := by
      rw [allNodes_eq, hgd, hflat0]
    have hperm : (allNodes (t.resizeStep hashKey)).Perm (allNodes t) := by
      rw [hall, hall']
      refine (List.Perm.append_left _ hperm1').trans ?_
      exact append_shuffle_perm _ _ _ _
    refine ⟨?_, hperm⟩
    rw [hres]
    refine
      { len0_pos := by simpa [length_setChain] using hlen0
        flag_iff := by simpa using hfl.symm
        len1_pos := ?_
        cursor_idle := by intro h; rw [show ({ t with
            nextResizeIndex := t.nextResizeIndex + 1,
            buckets0 := setChain t.buckets0 i [],
            buckets1 := some b1' } : Partition).resizeInProgress = t.resizeInProgress from rfl, hfl] at h; cases h
        cursor_lb := fun _ => by simp only; omega
        cursor_ub := ?_
        emptied := ?_
        placed0 := ?_
        placed1 := ?_
        nodup := ?_ }
    · intro b hb
      injection hb with hb
      rw [← hb]
      exact hlen1'
    · intro _
      simp only [length_setChain]
      omega
    · intro _ i' hi'
      simp only at hi'
      by_cases hii : i = i'
      · rw [← hii]
        exact getChain_setChain_self _ _ _ hilt
      · rw [getChain_setChain_ne _ _ _ _ hii]
        refine hInv.emptied hfl i' ?_
        omega
    · intro j nd hnd
      simp only [length_setChain]
      by_cases hij : i = j
      · rw [← hij] at hnd
        rw [getChain_setChain_self _ _ _ hilt] at hnd
        cases hnd
      · rw [getChain_setChain_ne _ _ _ _ hij] at hnd
        exact hInv.placed0 j nd hnd
    · intro b hb
      injection hb with hb
      rw [← hb]
      exact hplaced1'
    · have hk : (keysOf (t.resizeStep hashKey)).Perm (keysOf t) :=
        hperm.map Node.key
      have := hk.nodup_iff.mpr hInv.nodup
      rw [hres] at this
      exact this

theorem getChain_replicate_nil (n j : Nat) :
    getChain (List.replicate n []) j = [] := by
  simp [getChain, List.getD]

theorem flatten_replicate_nil (n : Nat) :
    (List.replicate n ([] : Chain)).flatten = [] := by
  induction n with
  | zero => rfl
  | succ n ih => simp [List.replicate_succ, ih]

theorem resizeIfNeeded_inv (hashKey : Key → Nat) (t : Partition)
    (hInv : PartInv hashKey t) : PartInv hashKey t.resizeIfNeeded := by
  by_cases hfl : t.resizeInProgress = true
  · rw [Partition.resizeIfNeeded, if_pos hfl]
    exact hInv
  · have hfl' : t.resizeInProgress = false := by simpa using hfl
    have hb1 : t.buckets1 = none := by
      have := hInv.flag_iff
      rw [hfl'] at this
      exact Option.not_isSome_iff_eq_none.mp (by simp [this])
    have hcur := hInv.cursor_idle hfl'
    have hlen0 := hInv.len0_pos
    rw [Partition.resizeIfNeeded, if_neg hfl]
    by_cases hg : t.nNodes > 5 * (t.buckets0.length : Int)
    · rw [if_pos hg]
      refine
        { len0_pos := hlen0
          flag_iff := rfl
          len1_pos := ?_
          cursor_idle := by intro h; cases h
          cursor_lb := fun _ => by simp only [hcur]; omega
          cursor_ub := fun _ => by simp only [hcur]; omega
          emptied := by intro _ i hi; simp only [hcur] at hi; omega
          placed0 := hInv.placed0
          placed1 := ?_
          nodup := ?_ }
      · intro b hb
        injection hb with hb
        rw [← hb]
        simpa using (by omega : 0 < 2 * t.buckets0.length)
      · intro b hb
        injection hb with hb
        rw [← hb]
        intro j nd hnd
        rw [getChain_replicate_nil] at hnd
        cases hnd
      · have : keysOf { t with
            buckets1 := some (List.replicate (2 * t.buckets0.length) []),
            resizeInProgress := true } = keysOf t := by
          simp [keysOf, allNodes_eq, hb1, flatten_replicate_nil]
        rw [this]
        exact hInv.nodup
    · rw [if_neg hg]
      by_cases hs : t.nNodes < (t.buckets0.length : Int) / 4 ∧
          t.nNodes > (initialBucketSize : Int)
      · rw [if_pos hs]
        have hbig : 20 ≤ t.buckets0.length := by
          obtain ⟨h1, h2⟩ := hs
          simp only [initialBucketSize] at h2
          omega
        refine
          { len0_pos := hlen0
            flag_iff := rfl
            len1_pos := ?_
            cursor_idle := by intro h; cases h
            cursor_lb := fun _ => by simp only [hcur]; omega
            cursor_ub := fun _ => by simp only [hcur]; omega
            emptied := by intro _ i hi; simp only [hcur] at hi; omega
            placed0 := hInv.placed0
            placed1 := ?_
            nodup := ?_ }
        · intro b hb
          injection hb with hb
          rw [← hb]
          simpa using (by omega : 0 < t.buckets0.length / 2)
        · intro b hb
          injection hb with hb
          rw [← hb]
          intro j nd hnd
          rw [getChain_replicate_nil] at hnd
          cases hnd
        · have : keysOf { t with
              buckets1 := some (List.replicate (t.buckets0.length / 2) []),
              resizeInProgress := true } = keysOf t := by
            simp [keysOf, allNodes_eq, hb1, flatten_replicate_nil]
          rw [this]
          exact hInv.nodup
      · rw [if_neg hs]
        exact hInv

theorem resizeIfNeeded_allNodes (t : Partition)
    (hb : t.resizeInProgress = false → t.buckets1 = none) :
    allNodes t.resizeIfNeeded = allNodes t := by
  by_cases hfl : t.resizeInProgress = true
  · rw [Partition.resizeIfNeeded, if_pos hfl]
  · have hb1 := hb (by simpa using hfl)
    rw [Partition.resizeIfNeeded, if_neg hfl]
    by_cases hg : t.nNodes > 5 * (t.buckets0.length : Int)
    · rw [if_pos hg]
      simp [allNodes_eq, hb1, flatten_replicate_nil]
    · rw [if_neg hg]
      by_cases hs : t.nNodes < (t.buckets0.length : Int) / 4 ∧
          t.nNodes > (initialBucketSize : Int)
      · rw [if_pos hs]
        simp [allNodes_eq, hb1, flatten_replicate_nil]
      · rw [if_neg hs]

theorem findInChain_some_mem (key : Key) (c : Chain) (pos : Nat) (nd : Node)
    (h : findInChain key c = some (pos, nd)) : nd.key = key ∧ nd ∈ c := by
  obtain ⟨hk, c1, c2, hdec, -⟩ := findInChain_some_decomp key c pos nd h
  exact ⟨hk, by rw [hdec]; simp⟩

theorem getChain_oob (bs : List Chain) (j : Nat) (h : bs.length ≤ j) :
    getChain bs j = [] := by
  rw [getChain, List.getD_eq_getElem?_getD, List.getElem?_eq_none h]
  rfl

theorem mem_allNodes_of_findNode (t : Partition) (key : Key) (hash : Nat)
    (arr pos : Nat) (nd : Node)
    (h : t.findNode key hash = some (arr, pos, nd)) :
    nd.key = key ∧ nd ∈ allNodes t := by
  rw [Partition.findNode] at h
  rcases h0 : findInChain key
      (getChain t.buckets0 (hash % t.buckets0.length)) with _ | pn
  · rw [h0] at h
    rcases hb : t.buckets1 with _ | b1
    · rw [hb] at h
      cases h
    · rw [hb] at h
      dsimp only at h
      rcases h1 : findInChain key (getChain b1 (hash % b1.length)) with _ | pn1
      · rw [h1] at h
        cases h
      · rw [h1] at h
        injection h with h'
        obtain ⟨-, -, -⟩ := Prod.mk.inj h'
        obtain ⟨hk, hmem⟩ := findInChain_some_mem _ _ _ _ h1
        have hin : pn1.2 ∈ allNodes t := by
          rw [allNodes_eq, hb]
          refine List.mem_append.mpr (Or.inr ?_)
          rcases Nat.lt_or_ge (hash % b1.length) b1.length with hlt | hge
          · exact (mem_flatten_iff_getChain _ _).mpr ⟨_, hlt, hmem⟩
          · rw [getChain_oob _ _ hge] at hmem
            cases hmem
        exact ⟨hk, hin⟩
  · rw [h0] at h
    dsimp only at h
    injection h with h'
    obtain ⟨-, -, -⟩ := Prod.mk.inj h'
    obtain ⟨hk, hmem⟩ := findInChain_some_mem _ _ _ _ h0
    have hin : pn.2 ∈ allNodes t := by
      rw [allNodes_eq]
      refine List.mem_append.mpr (Or.inl ?_)
      rcases Nat.lt_or_ge (hash % t.buckets0.length) t.buckets0.length with hlt | hge
      · exact (mem_flatten_iff_getChain _ _).mpr ⟨_, hlt, hmem⟩
      · rw [getChain_oob _ _ hge] at hmem
        cases hmem
    exact ⟨hk, hin⟩

theorem findNode_none_iff (hashKey : Key → Nat) (t : Partition) (key : Key)
    (hInv : PartInv hashKey t) :
    t.findNode key (hashKey key) = none ↔
      ∀ nd ∈ allNodes t, nd.key ≠ key := by
  constructor
  · intro h nd hnd hk
    rw [Partition.findNode] at h
    rcases h0 : findInChain key
        (getChain t.buckets0 (hashKey key % t.buckets0.length)) with _ | pn
    · rw [h0] at h
      rw [allNodes_eq] at hnd
      rcases List.mem_append.mp hnd with hin | hin
      · obtain ⟨j, hj, hmem⟩ := (mem_flatten_iff_getChain _ _).mp hin
        have hplace := hInv.placed0 j nd hmem
        rw [hk] at hplace
        rw [← hplace] at hmem
        exact (findInChain_none_iff key _).mp h0 nd hmem hk
      · rcases hb : t.buckets1 with _ | b1
        · rw [hb] at hin
          cases hin
        · rw [hb] at h hin
          dsimp only at h hin
          rcases h1 : findInChain key (getChain b1 (hashKey key % b1.length))
            with _ | pn1
          · obtain ⟨j, hj, hmem⟩ := (mem_flatten_iff_getChain _ _).mp hin
            have hplace := hInv.placed1 b1 hb j nd hmem
            rw [hk] at hplace
            rw [← hplace] at hmem
            exact (findInChain_none_iff key _).mp h1 nd hmem hk
          · rw [h1] at h
            cases h
    · rw [h0] at h
      cases h
  · intro h
    rw [Partition.findNode]
    rcases h0 : findInChain key
        (getChain t.buckets0 (hashKey key % t.buckets0.length)) with _ | pn
    · rcases hb : t.buckets1 with _ | b1
      · rfl
      · dsimp only
        rcases h1 : findInChain key (getChain b1 (hashKey key % b1.length))
          with _ | pn1
        · rfl
        · obtain ⟨hk, hmem⟩ := findInChain_some_mem _ _ _ _ h1
          exfalso
          refine h pn1.2 ?_ hk
          rw [allNodes_eq, hb]
          refine List.mem_append.mpr (Or.inr ?_)
          rcases Nat.lt_or_ge (hashKey key % b1.length) b1.length with hlt | hge
          · exact (mem_flatten_iff_getChain _ _).mpr ⟨_, hlt, hmem⟩
          · rw [getChain_oob _ _ hge] at hmem
            cases hmem
    · obtain ⟨hk, hmem⟩ := findInChain_some_mem _ _ _ _ h0
      exfalso
      refine h pn.2 ?_ hk
      rw [allNodes_eq]
      refine List.mem_append.mpr (Or.inl ?_)
      rcases Nat.lt_or_ge (hashKey key % t.buckets0.length) t.buckets0.length
        with hlt | hge
      · exact (mem_flatten_iff_getChain _ _).mpr ⟨_, hlt, hmem⟩
      · rw [getChain_oob _ _ hge] at hmem
        cases hmem

theorem set_at_length_append (c1 c2 : Chain) (nd nd' : Node) :
    (c1 ++ nd :: c2).set c1.length nd' = c1 ++ nd' :: c2 := by
  induction c1 with
  | nil => rfl
  | cons x rest ih => simp [ih]

theorem eraseIdx_at_length_append (c1 c2 : Chain) (nd : Node) :
    (c1 ++ nd :: c2).eraseIdx c1.length = c1 ++ c2 := by
  induction c1 with
  | nil => rfl
  | cons x rest ih => simp [ih]

theorem chain_index_lt (bs : List Chain) (j : Nat) (nd : Node)
    (h : nd ∈ getChain bs j) : j < bs.length := by
  rcases Nat.lt_or_ge j bs.length with hlt | hge
  · exact hlt
  · rw [getChain_oob _ _ hge] at h
    cases h

theorem locate_in_array (hashKey : Key → Nat) (bs : List Chain) (key : Key)
    (pos : Nat) (nd : Node)
    (hfc : findInChain key (getChain bs (hashKey key % bs.length)) =
      some (pos, nd))
    (hpl : placedIn hashKey bs) :
    nd.key = key ∧
    ∃ P S : List Node, bs.flatten = P ++ nd :: S ∧
      (∀ nd' : Node,
        (setChain bs (hashKey key % bs.length)
          ((getChain bs (hashKey key % bs.length)).set pos nd')).flatten =
          P ++ nd' :: S) ∧
      ((setChain bs (hashKey key % bs.length)
          ((getChain bs (hashKey key % bs.length)).eraseIdx pos)).flatten =
          P ++ S) ∧
      (∀ nd' : Node, nd'.key = key →
        placedIn hashKey (setChain bs (hashKey key % bs.length)
          ((getChain bs (hashKey key % bs.length)).set pos nd'))) ∧
      placedIn hashKey (setChain bs (hashKey key % bs.length)
        ((getChain bs (hashKey key % bs.length)).eraseIdx pos)) := by
  set j := hashKey key % bs.length with hj
  obtain ⟨hk, c1, c2, hdec, hlen⟩ := findInChain_some_decomp _ _ _ _ hfc
  have hjlt : j < bs.length := by
    refine chain_index_lt bs j nd ?_
    rw [hdec]
    simp
  refine ⟨hk, (bs.take j).flatten ++ c1, c2 ++ (bs.drop (j + 1)).flatten,
    ?_, ?_, ?_, ?_, ?_⟩
  · rw [flatten_parts bs j hjlt, hdec]
    simp [List.append_assoc]
  · intro nd'
    rw [setChain, flatten_set _ _ _ hjlt, hdec, ← hlen,
      set_at_length_append]
    simp [List.append_assoc]
  · rw [setChain, flatten_set _ _ _ hjlt, hdec, ← hlen,
      eraseIdx_at_length_append]
    simp [List.append_assoc]
  · intro nd' hk'
    intro i x hx
    rw [length_setChain]
    by_cases hij : j = i
    · rw [← hij] at hx ⊢
      rw [getChain_setChain_self _ _ _ hjlt, hdec, ← hlen,
        set_at_length_append] at hx
      rcases List.mem_append.mp hx with h1 | h1
      · refine hpl j x ?_
        rw [hdec]
        exact List.mem_append.mpr (Or.inl h1)
      · rcases List.mem_cons.mp h1 with h2 | h2
        · rw [h2, hk']
        · refine hpl j x ?_
          rw [hdec]
          exact List.mem_append.mpr (Or.inr (List.mem_cons.mpr (Or.inr h2)))
    · rw [getChain_setChain_ne _ _ _ _ hij] at hx
      exact hpl i x hx
  · intro i x hx
    rw [length_setChain]
    by_cases hij : j = i
    · rw [← hij] at hx ⊢
      rw [getChain_setChain_self _ _ _ hjlt, hdec, ← hlen,
        eraseIdx_at_length_append] at hx
      refine hpl j x ?_
      rw [hdec]
      rcases List.mem_append.mp hx with h1 | h1
      · exact List.mem_append.mpr (Or.inl h1)
      · exact List.mem_append.mpr (Or.inr (List.mem_cons.mpr (Or.inr h1)))
    · rw [getChain_setChain_ne _ _ _ _ hij] at hx
      exact hpl i x hx

theorem sublist_keys_nodup (P S : List Node) (nd : Node)
    (h : ((P ++ nd :: S).map Node.key).Nodup) :
    ((P ++ S).map Node.key).Nodup := by
  refine List.Nodup.sublist ?_ h
  refine List.Sublist.map Node.key ?_
  exact List.Sublist.append_left (List.sublist_cons_self nd S) P

theorem locate_findNode (hashKey : Key → Nat) (t : Partition) (key : Key)
    (arr pos : Nat) (nd : Node) (hInv : PartInv hashKey t)
    (h : t.findNode key (hashKey key) = some (arr, pos, nd)) :
    nd.key = key ∧
    ∃ P S : List Node, allNodes t = P ++ nd :: S ∧
      (∀ nd' : Node, nd'.key = key →
        allNodes (t.setNodeAt arr (hashKey key) pos nd') = P ++ nd' :: S ∧
        PartInv hashKey (t.setNodeAt arr (hashKey key) pos nd')) ∧
      allNodes (t.unlinkNodeAt arr (hashKey key) pos) = P ++ S ∧
      PartInv hashKey (t.unlinkNodeAt arr (hashKey key) pos) := by
  rw [Partition.findNode] at h
  rcases h0 : findInChain key
      (getChain t.buckets0 (hashKey key % t.buckets0.length)) with _ | pn
  case some =>
    rw [h0] at h
    dsimp only at h
    injection h with h'
    obtain ⟨rfl, rfl, rfl⟩ := Prod.mk.inj h'.symm
    obtain ⟨hk, P0, S0, heq, hsetf, herasef, hsetpl, herasepl⟩ :=
      locate_in_array hashKey t.buckets0 key pn.1 pn.2 (by
        rw [h0]) hInv.placed0
    have hmem : pn.2 ∈ getChain t.buckets0 (hashKey key % t.buckets0.length) :=
      (findInChain_some_mem _ _ _ _ h0).2
    have hsetdef : ∀ nd' : Node, t.setNodeAt 0 (hashKey key) pn.1 nd' =
        { t with buckets0 :=
            (setChain t.buckets0 (hashKey key % t.buckets0.length)
              ((getChain t.buckets0 (hashKey key % t.buckets0.length)).set pn.1 nd')) } := by
      intro nd'
      rw [Partition.setNodeAt, if_pos rfl]
    have herasedef : t.unlinkNodeAt 0 (hashKey key) pn.1 =
        { t with buckets0 :=
            (setChain t.buckets0 (hashKey key % t.buckets0.length)
              ((getChain t.buckets0 (hashKey key % t.buckets0.length)).eraseIdx pn.1)) } := by
      rw [Partition.unlinkNodeAt, if_pos rfl]
    refine ⟨hk, P0, S0 ++ (t.buckets1.getD []).flatten, ?_, ?_, ?_, ?_⟩
    · rw [allNodes_eq, heq]
      simp [List.append_assoc]
    · intro nd' hk'
      constructor
      · rw [hsetdef, allNodes_eq]
        simp only
        rw [hsetf nd']
        simp [List.append_assoc]
      · rw [hsetdef]
        refine
          { len0_pos := by
              simpa [length_setChain] using hInv.len0_pos
            flag_iff := hInv.flag_iff
            len1_pos := hInv.len1_pos
            cursor_idle := hInv.cursor_idle
            cursor_lb := hInv.cursor_lb
            cursor_ub := by
              intro hf
              simp only [length_setChain]
              exact hInv.cursor_ub hf
            emptied := ?_
            placed0 := hsetpl nd' hk'
            placed1 := hInv.placed1
            nodup := ?_ }
        · intro hf i hi
          simp only
          by_cases hij : (hashKey key % t.buckets0.length) = i
          · exfalso
            have := hInv.emptied hf i hi
            rw [← hij] at this
            rw [this] at hmem
            cases hmem
          · rw [getChain_setChain_ne _ _ _ _ hij]
            exact hInv.emptied hf i hi
        · have hkeys : keysOf { t with buckets0 :=
              (setChain t.buckets0 (hashKey key % t.buckets0.length)
                ((getChain t.buckets0 (hashKey key % t.buckets0.length)).set pn.1 nd')) } =
              keysOf t := by
            rw [keysOf, keysOf]
            have e1 : allNodes { t with buckets0 :=
                (setChain t.buckets0 (hashKey key % t.buckets0.length)
                  ((getChain t.buckets0 (hashKey key % t.buckets0.length)).set pn.1 nd')) } =
                P0 ++ nd' :: (S0 ++ (t.buckets1.getD []).flatten) := by
              rw [allNodes_eq]
              simp only
              rw [hsetf nd']
              simp [List.append_assoc]
            have e2 : allNodes t = P0 ++ pn.2 :: (S0 ++ (t.buckets1.getD []).flatten) := by
              rw [allNodes_eq, heq]
              simp [List.append_assoc]
            rw [e1, e2]
            simp [hk, hk']
          rw [hkeys]
          exact hInv.nodup
    · rw [herasedef, allNodes_eq]
      simp only
      rw [herasef]
      simp [List.append_assoc]
    · rw [herasedef]
      have e2 : allNodes t = P0 ++ pn.2 :: (S0 ++ (t.buckets1.getD []).flatten) := by
        rw [allNodes_eq, heq]
        simp [List.append_assoc]
      refine
        { len0_pos := by
            simpa [length_setChain] using hInv.len0_pos
          flag_iff := hInv.flag_iff
          len1_pos := hInv.len1_pos
          cursor_idle := hInv.cursor_idle
          cursor_lb := hInv.cursor_lb
          cursor_ub := by
            intro hf
            simp only [length_setChain]
            exact hInv.cursor_ub hf
          emptied := ?_
          placed0 := herasepl
          placed1 := hInv.placed1
          nodup := ?_ }
      · intro hf i hi
        simp only
        by_cases hij : (hashKey key % t.buckets0.length) = i
        · exfalso
          have := hInv.emptied hf i hi
          rw [← hij] at this
          rw [this] at hmem
          cases hmem
        · rw [getChain_setChain_ne _ _ _ _ hij]
          exact hInv.emptied hf i hi
      · have e1 : allNodes { t with buckets0 :=
            (setChain t.buckets0 (hashKey key % t.buckets0.length)
              ((getChain t.buckets0 (hashKey key % t.buckets0.length)).eraseIdx pn.1)) } =
            P0 ++ (S0 ++ (t.buckets1.getD []).flatten) := by
          rw [allNodes_eq]
          simp only
          rw [herasef]
          simp [List.append_assoc]
        have hnd := hInv.nodup
        rw [keysOf, e2] at hnd
        rw [keysOf, e1]
        exact sublist_keys_nodup _ _ _ hnd
  case none =>
    rw [h0] at h
    rcases hb : t.buckets1 with _ | b1
    · rw [hb] at h
      cases h
    · rw [hb] at h
      dsimp only at h
      rcases h1 : findInChain key (getChain b1 (hashKey key % b1.length))
        with _ | pn1
      · rw [h1] at h
        cases h
      · rw [h1] at h
        injection h with h'
        obtain ⟨rfl, rfl, rfl⟩ := Prod.mk.inj h'.symm
        obtain ⟨hk, P1, S1, heq, hsetf, herasef, hsetpl, herasepl⟩ :=
          locate_in_array hashKey b1 key pn1.1 pn1.2 (by rw [h1])
            (hInv.placed1 b1 hb)
        have hgd : t.buckets1.getD [] = b1 := by rw [hb]; rfl
        have hb1set : ∀ nd' : Node, t.setNodeAt 1 (hashKey key) pn1.1 nd' =
            { t with buckets1 :=
                (some (setChain b1 (hashKey key % b1.length)
                  ((getChain b1 (hashKey key % b1.length)).set pn1.1 nd'))) } := by
          intro nd'
          rw [Partition.setNodeAt, if_neg (by omega), hgd]
        have hb1erase : t.unlinkNodeAt 1 (hashKey key) pn1.1 =
            { t with buckets1 :=
                (some (setChain b1 (hashKey key % b1.length)
                  ((getChain b1 (hashKey key % b1.length)).eraseIdx pn1.1))) } := by
          rw [Partition.unlinkNodeAt, if_neg (by omega), hgd]
        have hflag1 : t.resizeInProgress = true := by
          have := hInv.flag_iff
          rw [hb] at this
          simpa using this.symm
        refine ⟨hk, t.buckets0.flatten ++ P1, S1, ?_, ?_, ?_, ?_⟩
        · rw [allNodes_eq, hgd, heq]
          simp [List.append_assoc]
        · intro nd' hk'
          constructor
          · rw [hb1set, allNodes_eq]
            simp only [Option.getD_some]
            rw [hsetf nd']
            simp [List.append_assoc]
          · rw [hb1set]
            refine
              { len0_pos := hInv.len0_pos
                flag_iff := by
                  simp only [Option.isSome_some]
                  exact hflag1.symm
                len1_pos := ?_
                cursor_idle := hInv.cursor_idle
                cursor_lb := hInv.cursor_lb
                cursor_ub := hInv.cursor_ub
                emptied := hInv.emptied
                placed0 := hInv.placed0
                placed1 := ?_
                nodup := ?_ }
            · intro b hbb
              injection hbb with hbb
              rw [← hbb, length_setChain]
              exact hInv.len1_pos b1 hb
            · intro b hbb
              injection hbb with hbb
              rw [← hbb]
              exact hsetpl nd' hk'
            · have e1 : allNodes { t with buckets1 :=
                  (some (setChain b1 (hashKey key % b1.length)
                    ((getChain b1 (hashKey key % b1.length)).set pn1.1 nd'))) } =
                  (t.buckets0.flatten ++ P1) ++ nd' :: S1 := by
                rw [allNodes_eq]
                simp only [Option.getD_some]
                rw [hsetf nd']
                simp [List.append_assoc]
              have e2 : allNodes t = (t.buckets0.flatten ++ P1) ++ pn1.2 :: S1 := by
                rw [allNodes_eq, hgd, heq]
                simp [List.append_assoc]
              have hnd := hInv.nodup
              rw [keysOf, e2] at hnd
              rw [keysOf, e1]
              simpa [hk, hk'] using hnd
        · rw [hb1erase, allNodes_eq]
          simp only [Option.getD_some]
          rw [herasef]
          simp [List.append_assoc]
        · rw [hb1erase]
          refine
            { len0_pos := hInv.len0_pos
              flag_iff := by
                simp only [Option.isSome_some]
                exact hflag1.symm
              len1_pos := ?_
              cursor_idle := hInv.cursor_idle
              cursor_lb := hInv.cursor_lb
              cursor_ub := hInv.cursor_ub
              emptied := hInv.emptied
              placed0 := hInv.placed0
              placed1 := ?_
              nodup := ?_ }
          · intro b hbb
            injection hbb with hbb
            rw [← hbb, length_setChain]
            exact hInv.len1_pos b1 hb
          · intro b hbb
            injection hbb with hbb
            rw [← hbb]
            exact herasepl
          · have e1 : allNodes { t with buckets1 :=
                (some (setChain b1 (hashKey key % b1.length)
                  ((getChain b1 (hashKey key % b1.length)).eraseIdx pn1.1))) } =
                (t.buckets0.flatten ++ P1) ++ S1 := by
              rw [allNodes_eq]
              simp only [Option.getD_some]
              rw [herasef]
              simp [List.append_assoc]
            have e2 : allNodes t = (t.buckets0.flatten ++ P1) ++ pn1.2 :: S1 := by
              rw [allNodes_eq, hgd, heq]
              simp [List.append_assoc]
            have hnd := hInv.nodup
            rw [keysOf, e2] at hnd
            rw [keysOf, e1]
            exact sublist_keys_nodup _ _ _ hnd

theorem insert_two_step (bs : List Chain) (hash : Nat) (n0 nd' : Node) :
    setChain (setChain bs (hash % bs.length)
        (n0 :: getChain bs (hash % bs.length)))
      (hash % (setChain bs (hash % bs.length)
        (n0 :: getChain bs (hash % bs.length))).length)
      ((getChain (setChain bs (hash % bs.length)
          (n0 :: getChain bs (hash % bs.length)))
        (hash % (setChain bs (hash % bs.length)
          (n0 :: getChain bs (hash % bs.length))).length)).set 0 nd') =
    setChain bs (hash % bs.length) (nd' :: getChain bs (hash % bs.length)) := by
  have hlsc : (setChain bs (hash % bs.length)
      (n0 :: getChain bs (hash % bs.length))).length = bs.length :=
    length_setChain ..
  rw [hlsc]
  by_cases hj : hash % bs.length < bs.length
  · rw [getChain_setChain_self _ _ _ hj, List.set_cons_zero, setChain, setChain,
      setChain, List.set_set]
  · have hge : bs.length ≤ hash % bs.length := by omega
    rw [setChain, setChain, setChain, List.set_eq_of_length_le hge,
      List.set_eq_of_length_le hge, List.set_eq_of_length_le hge]

theorem put_fresh_eq (hashKey : Key → Nat) (key : Key) (sq : Nat)
    (v : Option ValuePointer) (hash : Nat) (t : Partition)
    (h : (t.resizeStep hashKey).findNode key hash = none) (hv : v ≠ none) :
    Partition.put hashKey key sq v hash t =
      some ((none, true),
        (insertNode (t.resizeStep hashKey) key sq v hash).resizeIfNeeded) := by
  set t1 := t.resizeStep hashKey with ht1
  simp only [Partition.put, h]
  rw [if_neg hv]
  by_cases hfl : t1.resizeInProgress = true
  · rw [if_pos hfl, if_pos hfl, insertNode, if_pos hfl]
    congr 2
    simp only [Option.getD_some]
    rw [insert_two_step]
  · rw [if_neg hfl, if_neg hfl, insertNode, if_neg hfl]
    congr 2
    simp only [Option.getD_some]
    rw [insert_two_step]

theorem insert_in_array (hashKey : Key → Nat) (bs : List Chain) (nd : Node)
    (hlen : 0 < bs.length) (hpl : placedIn hashKey bs) :
    (setChain bs (hashKey nd.key % bs.length)
        (nd :: getChain bs (hashKey nd.key % bs.length))).flatten =
      (bs.take (hashKey nd.key % bs.length)).flatten ++ nd ::
        (getChain bs (hashKey nd.key % bs.length) ++
          (bs.drop (hashKey nd.key % bs.length + 1)).flatten) ∧
    bs.flatten = (bs.take (hashKey nd.key % bs.length)).flatten ++
        (getChain bs (hashKey nd.key % bs.length) ++
          (bs.drop (hashKey nd.key % bs.length + 1)).flatten) ∧
    placedIn hashKey (setChain bs (hashKey nd.key % bs.length)
      (nd :: getChain bs (hashKey nd.key % bs.length))) := by
  have hj : hashKey nd.key % bs.length < bs.length := Nat.mod_lt _ hlen
  refine ⟨?_, ?_, ?_⟩
  · rw [setChain, flatten_set _ _ _ hj]
    simp [List.append_assoc]
  · rw [flatten_parts bs _ hj]
    simp [List.append_assoc]
  · intro i x hx
    rw [length_setChain]
    by_cases hij : (hashKey nd.key % bs.length) = i
    · rw [← hij] at hx ⊢
      rw [getChain_setChain_self _ _ _ hj] at hx
      rcases List.mem_cons.mp hx with h1 | h1
      · rw [h1]
      · exact hpl _ x h1
    · rw [getChain_setChain_ne _ _ _ _ hij] at hx
      exact hpl i x hx

theorem insertNode_inv_nodes (hashKey : Key → Nat) (t : Partition) (key : Key)
    (sq : Nat) (v : Option ValuePointer) (hInv : PartInv hashKey t)
    (habs : ∀ nd ∈ allNodes t, nd.key ≠ key) :
    PartInv hashKey (insertNode t key sq v (hashKey key)) ∧
    ∃ P S : List Node, allNodes t = P ++ S ∧
      allNodes (insertNode t key sq v (hashKey key)) =
        P ++ (⟨sq, key, v⟩ : Node) :: S := by
  set nd : Node := ⟨sq, key, v⟩ with hnd
  have hknd : nd.key = key := rfl
  have hkeysnotin : key ∉ keysOf t := by
    intro hmem
    obtain ⟨x, hx, hkx⟩ := List.mem_map.mp hmem
    exact habs x hx hkx
  by_cases hfl : t.resizeInProgress = true
  · obtain ⟨b1, hb1⟩ : ∃ b1, t.buckets1 = some b1 := by
      have := hInv.flag_iff
      rw [hfl] at this
      exact Option.isSome_iff_exists.mp this
    have hlen1 : 0 < b1.length := hInv.len1_pos b1 hb1
    have hgd : t.buckets1.getD [] = b1 := by rw [hb1]; rfl
    have hins : insertNode t key sq v (hashKey key) =
        { t with
          buckets1 := (some (setChain b1 (hashKey key % b1.length)
            (nd :: getChain b1 (hashKey key % b1.length))))
          nElements := t.nElements + 1
          nNodes := t.nNodes + 1 } := by
      rw [insertNode, if_pos hfl, hgd]
    obtain ⟨hset, hold, hplset⟩ :=
      insert_in_array hashKey b1 nd hlen1 (hInv.placed1 b1 hb1)
    rw [hknd] at hset hold hplset
    have heqall : allNodes (insertNode t key sq v (hashKey key)) =
        (t.buckets0.flatten ++ (b1.take (hashKey key % b1.length)).flatten) ++
          nd :: (getChain b1 (hashKey key % b1.length) ++
            (b1.drop (hashKey key % b1.length + 1)).flatten) := by
      rw [hins, allNodes_eq]
      simp only [Option.getD_some]
      rw [hset]
      simp [List.append_assoc]
    have holdall : allNodes t =
        (t.buckets0.flatten ++ (b1.take (hashKey key % b1.length)).flatten) ++
          (getChain b1 (hashKey key % b1.length) ++
            (b1.drop (hashKey key % b1.length + 1)).flatten) := by
      rw [allNodes_eq, hgd, hold]
      simp [List.append_assoc]
    refine ⟨?_, _, _, holdall, heqall⟩
    rw [hins]
    refine
      { len0_pos := hInv.len0_pos
        flag_iff := by
          simp only [Option.isSome_some]
          exact hfl.symm
        len1_pos := ?_
        cursor_idle := hInv.cursor_idle
        cursor_lb := hInv.cursor_lb
        cursor_ub := hInv.cursor_ub
        emptied := hInv.emptied
        placed0 := hInv.placed0
        placed1 := ?_
        nodup := ?_ }
    · intro b hbb
      injection hbb with hbb
      rw [← hbb, length_setChain]
      exact hlen1
    · intro b hbb
      injection hbb with hbb
      rw [← hbb]
      exact hplset
    · have : keysOf { t with
          buckets1 := (some (setChain b1 (hashKey key % b1.length)
            (nd :: getChain b1 (hashKey key % b1.length))))
          nElements := t.nElements + 1
          nNodes := t.nNodes + 1 } =
          (allNodes (insertNode t key sq v (hashKey key))).map Node.key := by
        rw [hins]
        rfl
      rw [this, heqall]
      have hold2 : keysOf t = ((t.buckets0.flatten ++
          (b1.take (hashKey key % b1.length)).flatten) ++
          (getChain b1 (hashKey key % b1.length) ++
            (b1.drop (hashKey key % b1.length + 1)).flatten)).map Node.key := by
        rw [keysOf, holdall]
      rw [List.map_append, List.map_cons]
      rw [List.nodup_middle]
      refine List.Nodup.cons ?_ ?_
      · intro hmem
        rw [← List.map_append] at hmem
        refine hkeysnotin ?_
        rw [keysOf, holdall]
        simpa [hknd] using hmem
      · rw [← List.map_append]
        have := hInv.nodup
        rw [hold2] at this
        exact this
  · have hfl' : t.resizeInProgress = false := by simpa using hfl
    have hb1 : t.buckets1 = none := by
      have := hInv.flag_iff
      rw [hfl'] at this
      exact Option.not_isSome_iff_eq_none.mp (by simp [this])
    have hlen0 := hInv.len0_pos
    have hins : insertNode t key sq v (hashKey key) =
        { t with
          buckets0 := (setChain t.buckets0 (hashKey key % t.buckets0.length)
            (nd :: getChain t.buckets0 (hashKey key % t.buckets0.length)))
          nElements := t.nElements + 1
          nNodes := t.nNodes + 1 } := by
      rw [insertNode, if_neg hfl]
    obtain ⟨hset, hold, hplset⟩ :=
      insert_in_array hashKey t.buckets0 nd hlen0 hInv.placed0
    rw [hknd] at hset hold hplset
    have heqall : allNodes (insertNode t key sq v (hashKey key)) =
        (t.buckets0.take (hashKey key % t.buckets0.length)).flatten ++
          nd :: (getChain t.buckets0 (hashKey key % t.buckets0.length) ++
            (t.buckets0.drop (hashKey key % t.buckets0.length + 1)).flatten) := by
      rw [hins, allNodes_eq]
      simp only [hb1]
      rw [hset]
      simp [List.append_assoc]
    have holdall : allNodes t =
        (t.buckets0.take (hashKey key % t.buckets0.length)).flatten ++
          (getChain t.buckets0 (hashKey key % t.buckets0.length) ++
            (t.buckets0.drop (hashKey key % t.buckets0.length + 1)).flatten) := by
      rw [allNodes_eq, hb1, hold]
      simp
    refine ⟨?_, _, _, holdall, heqall⟩
    rw [hins]
    refine
      { len0_pos := by
          simpa [length_setChain] using hlen0
        flag_iff := hInv.flag_iff
        len1_pos := hInv.len1_pos
        cursor_idle := hInv.cursor_idle
        cursor_lb := hInv.cursor_lb
        cursor_ub := by
          intro hf
          simp only [length_setChain]
          exact hInv.cursor_ub hf
        emptied := ?_
        placed0 := hplset
        placed1 := hInv.placed1
        nodup := ?_ }
    · intro hf
      exact absurd hf (by simp [hfl'])
    · have : keysOf { t with
          buckets0 := (setChain t.buckets0 (hashKey key % t.buckets0.length)
            (nd :: getChain t.buckets0 (hashKey key % t.buckets0.length)))
          nElements := t.nElements + 1
          nNodes := t.nNodes + 1 } =
          (allNodes (insertNode t key sq v (hashKey key))).map Node.key := by
        rw [hins]
        rfl
      rw [this, heqall]
      rw [List.map_append, List.map_cons]
      rw [List.nodup_middle]
      refine List.Nodup.cons ?_ ?_
      · intro hmem
        rw [← List.map_append] at hmem
        refine hkeysnotin ?_
        rw [keysOf, holdall]
        simpa [hknd] using hmem
      · rw [← List.map_append]
        have := hInv.nodup
        rw [keysOf, holdall] at this
        exact this

theorem put_found_eq (hashKey : Key → Nat) (key : Key) (sq : Nat)
    (v : Option ValuePointer) (hash : Nat) (t : Partition) (arr pos : Nat)
    (nd : Node)
    (hfind : (t.resizeStep hashKey).findNode key hash = some (arr, pos, nd))
    (hge : sq ≥ nd.seqNumber) :
    Partition.put hashKey key sq v hash t =
      if v = none then
        some ((nd.ptr, true),
          ({ (t.resizeStep hashKey).unlinkNodeAt arr hash pos with
            nNodes :=
              ((t.resizeStep hashKey).unlinkNodeAt arr hash pos).nNodes - 1
            } : Partition).resizeIfNeeded)
      else
        some ((nd.ptr, true),
          ((t.resizeStep hashKey).setNodeAt arr hash pos
            ⟨sq, key, v⟩).resizeIfNeeded) := by
  simp only [Partition.put, hfind]
  rw [if_pos hge]

theorem put_stale_eq (hashKey : Key → Nat) (key : Key) (sq : Nat)
    (v : Option ValuePointer) (hash : Nat) (t : Partition) (arr pos : Nat)
    (nd : Node)
    (hfind : (t.resizeStep hashKey).findNode key hash = some (arr, pos, nd))
    (hlt : sq < nd.seqNumber) :
    Partition.put hashKey key sq v hash t =
      some ((v, false), (t.resizeStep hashKey).resizeIfNeeded) := by
  simp only [Partition.put, hfind]
  rw [if_neg (by omega)]

theorem remove_none_eq (hashKey : Key → Nat) (key : Key) (sq : Nat)
    (hash : Nat) (t : Partition)
    (hfind : (t.resizeStep hashKey).findNode key hash = none) :
    Partition.remove hashKey key sq hash t = (none, t.resizeStep hashKey) := by
  simp only [Partition.remove, hfind]

theorem remove_found_eq (hashKey : Key → Nat) (key : Key) (sq : Nat)
    (hash : Nat) (t : Partition) (arr pos : Nat) (nd : Node)
    (hfind : (t.resizeStep hashKey).findNode key hash = some (arr, pos, nd))
    (hge : sq ≥ nd.seqNumber) :
    Partition.remove hashKey key sq hash t =
      (nd.ptr,
        if nd.ptr ≠ none then
          { (t.resizeStep hashKey).setNodeAt arr hash pos
              ⟨nd.seqNumber, nd.key, none⟩ with
            nElements :=
              ((t.resizeStep hashKey).setNodeAt arr hash pos
                ⟨nd.seqNumber, nd.key, none⟩).nElements - 1 }
        else
          (t.resizeStep hashKey).setNodeAt arr hash pos
            ⟨nd.seqNumber, nd.key, none⟩) := by
  simp only [Partition.remove, hfind]
  rw [if_pos hge]

theorem remove_stale_eq (hashKey : Key → Nat) (key : Key) (sq : Nat)
    (hash : Nat) (t : Partition) (arr pos : Nat) (nd : Node)
    (hfind : (t.resizeStep hashKey).findNode key hash = some (arr, pos, nd))
    (hlt : sq < nd.seqNumber) :
    Partition.remove hashKey key sq hash t = (none, t.resizeStep hashKey) := by
  simp only [Partition.remove, hfind]
  rw [if_neg (by omega)]

theorem inv_counters (hashKey : Key → Nat) (t : Partition) (e m : Int)
    (h : PartInv hashKey t) :
    PartInv hashKey { t with nElements := e, nNodes := m } :=
  { len0_pos := h.len0_pos
    flag_iff := h.flag_iff
    len1_pos := h.len1_pos
    cursor_idle := h.cursor_idle
    cursor_lb := h.cursor_lb
    cursor_ub := h.cursor_ub
    emptied := h.emptied
    placed0 := h.placed0
    placed1 := h.placed1
    nodup := h.nodup }

theorem inv_init (hashKey : Key → Nat) : PartInv hashKey newTablePartition :=
  { len0_pos := by simp [newTablePartition, initialBucketSize]
    flag_iff := rfl
    len1_pos := by intro b hb; cases hb
    cursor_idle := fun _ => rfl
    cursor_lb := by intro h; cases h
    cursor_ub := by intro h; cases h
    emptied := by intro h; cases h
    placed0 := by
      intro j nd hnd
      rw [show newTablePartition.buckets0 = List.replicate initialBucketSize []
        from rfl, getChain_replicate_nil] at hnd
      cases hnd
    placed1 := by intro b hb; cases hb
    nodup := by
      rw [keysOf, allNodes_eq]
      simp [newTablePartition, flatten_replicate_nil, initialBucketSize] }

theorem applyOp_inv (hashKey : Key → Nat) (op : Op) (t t' : Partition)
    (hInv : PartInv hashKey t) (h : applyOp hashKey op t = some t') :
    PartInv hashKey t' := by
  cases op with
  | put k sq v =>
    simp only [applyOp] at h
    have hInv1 : PartInv hashKey (t.resizeStep hashKey) :=
      (resizeStep_inv_perm hashKey t hInv).1
    rcases hf : (t.resizeStep hashKey).findNode k (hashKey k) with _ | ⟨arr, pos, nd⟩
    · by_cases hv : v = none
      · rw [hv, put_absent_key_nil_pointer_panics hashKey k sq (hashKey k) t hf] at h
        cases h
      · rw [put_fresh_eq hashKey k sq v (hashKey k) t hf hv] at h
        injection h with h'
        rw [← h']
        refine resizeIfNeeded_inv hashKey _ ?_
        refine (insertNode_inv_nodes hashKey _ k sq v hInv1 ?_).1
        intro x hx hkx
        exact (findNode_none_iff hashKey _ k hInv1).mp hf x hx hkx
    · obtain ⟨hk, P, S, -, hset, -, hunlinkinv⟩ :=
        locate_findNode hashKey _ k arr pos nd hInv1 hf
      by_cases hge : sq ≥ nd.seqNumber
      · rw [put_found_eq hashKey k sq v (hashKey k) t arr pos nd hf hge] at h
        by_cases hv : v = none
        · rw [if_pos hv] at h
          injection h with h'
          rw [← h']
          refine resizeIfNeeded_inv hashKey _ ?_
          exact inv_counters hashKey _ _ _ hunlinkinv
        · rw [if_neg hv] at h
          injection h with h'
          rw [← h']
          refine resizeIfNeeded_inv hashKey _ ?_
          exact (hset ⟨sq, k, v⟩ rfl).2
      · rw [put_stale_eq hashKey k sq v (hashKey k) t arr pos nd hf (by omega)] at h
        injection h with h'
        rw [← h']
        exact resizeIfNeeded_inv hashKey _ hInv1
  | remove k sq =>
    simp only [applyOp] at h
    have hInv1 : PartInv hashKey (t.resizeStep hashKey) :=
      (resizeStep_inv_perm hashKey t hInv).1
    rcases hf : (t.resizeStep hashKey).findNode k (hashKey k) with _ | ⟨arr, pos, nd⟩
    · rw [remove_none_eq hashKey k sq (hashKey k) t hf] at h
      injection h with h'
      rw [← h']
      exact hInv1
    · obtain ⟨hk, P, S, -, hset, -, -⟩ :=
        locate_findNode hashKey _ k arr pos nd hInv1 hf
      by_cases hge : sq ≥ nd.seqNumber
      · rw [remove_found_eq hashKey k sq (hashKey k) t arr pos nd hf hge] at h
        injection h with h'
        rw [← h']
        by_cases hp : nd.ptr ≠ none
        · rw [if_pos hp]
          exact inv_counters hashKey _ _ _ (hset ⟨nd.seqNumber, nd.key, none⟩ hk).2
        · rw [if_neg hp]
          exact (hset ⟨nd.seqNumber, nd.key, none⟩ hk).2
      · rw [remove_stale_eq hashKey k sq (hashKey k) t arr pos nd hf (by omega)] at h
        injection h with h'
        rw [← h']
        exact hInv1

theorem runOps_inv (hashKey : Key → Nat) (ops : List Op) :
    ∀ t t' : Partition, PartInv hashKey t →
      runOps hashKey ops t = some t' → PartInv hashKey t' := by
  induction ops with
  | nil =>
    intro t t' hInv h
    injection h with h'
    rw [← h']
    exact hInv
  | cons op rest ih =>
    intro t t' hInv h
    rw [runOps, List.foldl_cons, Option.some_bind] at h
    rcases h1 : applyOp hashKey op t with _ | t2
    · rw [h1] at h
      have hnone : ∀ l : List Op, List.foldl
          (fun acc op => acc.bind (applyOp hashKey op))
          (none : Option Partition) l = none := by
        intro l
        induction l with
        | nil => rfl
        | cons x xs ihx => rw [List.foldl_cons, Option.none_bind]; exact ihx
      rw [hnone rest] at h
      cases h
    · rw [h1] at h
      exact ih t2 t' (applyOp_inv hashKey op t t2 hInv h1) h

theorem reachable_inv (hashKey : Key → Nat) (t : Partition)
    (h : Reachable hashKey t) : PartInv hashKey t := by
  obtain ⟨ops, hops⟩ := h
  exact runOps_inv hashKey ops newTablePartition t (inv_init hashKey) hops

theorem inv_wf_b1 (hashKey : Key → Nat) (t : Partition) (hInv : PartInv hashKey t)
    (h : t.resizeInProgress = false) : t.buckets1 = none := by
  have := hInv.flag_iff
  rw [h] at this
  exact Option.not_isSome_iff_eq_none.mp (by simp [this])

theorem find_unique_perm (l l' : List Node) (k : Key)
    (hperm : l.Perm l') (hnd : (l.map Node.key).Nodup) :
    l.find? (fun nd => nd.key == k) = l'.find? (fun nd => nd.key == k) := by
  cases hf : l.find? (fun nd => nd.key == k) with
  | none =>
    rw [List.find?_eq_none] at hf
    symm
    rw [List.find?_eq_none]
    intro x hx
    exact hf x (hperm.symm.subset hx)
  | some nd =>
    have hp := List.find?_some hf
    have hmem := List.mem_of_find?_eq_some hf
    cases hf' : l'.find? (fun nd => nd.key == k) with
    | none =>
      rw [List.find?_eq_none] at hf'
      exact absurd hp (hf' nd (hperm.subset hmem))
    | some nd2 =>
      have hp2 := List.find?_some hf'
      have hmem2 : nd2 ∈ l := hperm.symm.subset (List.mem_of_find?_eq_some hf')
      have hkeq : nd.key = nd2.key := by
        have h1 : nd.key = k := by simpa using hp
        have h2 : nd2.key = k := by simpa using hp2
        rw [h1, h2]
      rw [List.inj_on_of_nodup_map hnd hmem hmem2 hkeq]

theorem find_middle_congr (P S : List Node) (a b : Node) (k : Key)
    (hk : a.key = b.key) :
    ((P ++ a :: S).find? (fun nd => nd.key == k) =
      (P ++ b :: S).find? (fun nd => nd.key == k)) ∨
    ((P ++ a :: S).find? (fun nd => nd.key == k) = some a ∧
      (P ++ b :: S).find? (fun nd => nd.key == k) = some b) := by
  rw [List.find?_append, List.find?_append]
  cases hP : P.find? (fun nd => nd.key == k) with
  | some x => left; rfl
  | none =>
    simp only [Option.none_or]
    rw [List.find?_cons, List.find?_cons]
    by_cases ha : a.key = k
    · right
      simp only [show (a.key == k) = true from by simpa using ha,
        show (b.key == k) = true from by simpa [← hk] using ha]
      exact ⟨trivial, trivial⟩
    · left
      simp only [show (a.key == k) = false from by simpa using ha,
        show (b.key == k) = false from by simpa [← hk] using ha]

theorem find_middle_insert (P S : List Node) (a : Node) (k : Key)
    (hne : a.key ≠ k) :
    (P ++ a :: S).find? (fun nd => nd.key == k) =
      (P ++ S).find? (fun nd => nd.key == k) := by
  rw [List.find?_append, List.find?_append]
  cases hP : P.find? (fun nd => nd.key == k) with
  | some x => rfl
  | none =>
    simp only [Option.none_or]
    rw [List.find?_cons]
    simp only [show (a.key == k) = false from by simpa using hne]

theorem find_middle_erase_matching (P S : List Node) (a : Node)
    (hnd : ((P ++ a :: S).map Node.key).Nodup) :
    (P ++ S).find? (fun nd => nd.key == a.key) = none := by
  rw [List.find?_eq_none]
  intro x hx hpx
  have hxk : x.key = a.key := by simpa using hpx
  have hmem : a.key ∈ (P ++ S).map Node.key := by
    refine List.mem_map.mpr ⟨x, hx, hxk⟩
  rw [List.map_append, List.map_cons] at hnd
  rw [List.nodup_middle] at hnd
  rw [← List.map_append] at hnd
  exact (List.nodup_cons.mp hnd).1 hmem

/-- C5: in every reachable partition state, at most one entry for any
distinct key exists across both bucket arrays. -/
theorem key_uniqueness_invariant (hashKey : Key → Nat) (t : Partition)
    (h : Reachable hashKey t) (k : Key) :
    ((allNodes t).filter (fun nd => nd.key == k)).length ≤ 1 := by
  have hInv := reachable_inv hashKey t h
  have hnd := hInv.nodup
  rw [keysOf] at hnd
  have main : ∀ l : List Node, (l.map Node.key).Nodup →
      (l.filter (fun nd => nd.key == k)).length ≤ 1 := by
    intro l
    induction l with
    | nil => intro _; simp
    | cons a rest ih =>
      intro hl
      rw [List.map_cons, List.nodup_cons] at hl
      rw [List.filter_cons]
      by_cases hak : a.key = k
      · simp only [show (a.key == k) = true from by simpa using hak, if_pos]
        have hrest : rest.filter (fun nd => nd.key == k) = [] := by
          rw [List.filter_eq_nil_iff]
          intro x hx hpx
          refine hl.1 ?_
          have hxk : x.key = a.key := by
            rw [hak]
            simpa using hpx
          exact List.mem_map.mpr ⟨x, hx, hxk⟩
        rw [hrest]
        simp
      · simp only [show (a.key == k) = false from by simpa using hak]
        exact ih hl.2
  exact main (allNodes t) hnd

/-- Witness for `key_uniqueness_invariant` at a concrete reachable state. -/
theorem key_uniqueness_invariant_witness :
    ((allNodes (stateAfter [Op.put [1] 5 (some 7), Op.put [2] 3 (some 8)])).filter
      (fun nd => nd.key == [1])).length ≤ 1 :=
  key_uniqueness_invariant exampleHash _
    ⟨[Op.put [1] 5 (some 7), Op.put [2] 3 (some 8)], by decide⟩ [1]

/-- C6 amended: in every reachable in-flight state, every active bucket at
an index already passed by the cursor is empty, and the step that migrates
the last bucket promotes the incoming array to active and clears the
resize state. -/
theorem resize_migrated_buckets_empty_amended (hashKey : Key → Nat)
    (t : Partition) (h : Reachable hashKey t) :
    (t.resizeInProgress = true → ∀ i : Nat,
      (i : Int) ≤ t.nextResizeIndex → getChain t.buckets0 i = []) ∧
    (t.resizeInProgress = true →
      t.nextResizeIndex = (t.buckets0.length : Int) - 2 →
      (t.resizeStep hashKey).resizeInProgress = false ∧
      (t.resizeStep hashKey).buckets1 = none ∧
      (t.resizeStep hashKey).buckets0 =
        migrateChain hashKey (getChain t.buckets0 (t.buckets0.length - 1))
          (t.buckets1.getD [])) := by
  have hInv := reachable_inv hashKey t h
  refine ⟨hInv.emptied, ?_⟩
  intro hfl hcur
  have hlen0 := hInv.len0_pos
  have hi : (t.nextResizeIndex + 1).toNat = t.buckets0.length - 1 := by omega
  rw [Partition.resizeStep, if_pos hfl, hi, if_pos rfl]
  exact ⟨rfl, rfl, rfl⟩

/-- Witness for `resize_migrated_buckets_empty_amended`: in the in-flight
state after 22 operations, the migrated active bucket 0 is empty. -/
theorem resize_migrated_buckets_empty_amended_witness :
    getChain (stateAfter opsFreshInsertDuringResize).buckets0 0 = [] :=
  (resize_migrated_buckets_empty_amended exampleHash _
    ⟨opsFreshInsertDuringResize, by decide⟩).1 (by decide) 0 (by decide)

/-- C10: one put or remove step never decreases the stored sequence number
of any key, and remove leaves it unchanged. -/
theorem seq_never_decreases (hashKey : Key → Nat) (t : Partition)
    (hreach : Reachable hashKey t) (op : Op) (t' : Partition)
    (hstep : applyOp hashKey op t = some t') (k : Key) (nd0 nd1 : Node)
    (h0 : entryOf t k = some nd0) (h1 : entryOf t' k = some nd1) :
    nd0.seqNumber ≤ nd1.seqNumber ∧
      (∀ k2 sq2, op = Op.remove k2 sq2 → nd1.seqNumber = nd0.seqNumber) := by
  have hInv := reachable_inv hashKey t hreach
  obtain ⟨hInv1, hperm⟩ := resizeStep_inv_perm hashKey t hInv
  have he1 : entryOf (t.resizeStep hashKey) k = entryOf t k := by
    rw [entryOf, entryOf]
    exact find_unique_perm _ _ k hperm hInv1.nodup
  have hRIN : ∀ s : Partition, PartInv hashKey s →
      entryOf s.resizeIfNeeded k = entryOf s k := by
    intro s hs
    rw [entryOf, entryOf, resizeIfNeeded_allNodes s (inv_wf_b1 hashKey s hs)]
  have h01 : entryOf (t.resizeStep hashKey) k = some nd0 := by rw [he1, h0]
  cases op with
  | put k2 sq2 v =>
    simp only [applyOp] at hstep
    rcases hf : (t.resizeStep hashKey).findNode k2 (hashKey k2)
      with _ | ⟨arr, pos, nd⟩
    · by_cases hv : v = none
      · rw [hv, put_absent_key_nil_pointer_panics hashKey k2 sq2 (hashKey k2) t hf]
          at hstep
        cases hstep
      · rw [put_fresh_eq hashKey k2 sq2 v (hashKey k2) t hf hv] at hstep
        simp only [Option.map_some'] at hstep
        injection hstep with h'
        have habs : ∀ nd ∈ allNodes (t.resizeStep hashKey), nd.key ≠ k2 :=
          (findNode_none_iff hashKey _ k2 hInv1).mp hf
        obtain ⟨hinsInv, P, S, hPS, hinsEq⟩ :=
          insertNode_inv_nodes hashKey _ k2 sq2 v hInv1 habs
        have h1' : entryOf (insertNode (t.resizeStep hashKey) k2 sq2 v
            (hashKey k2)) k = some nd1 := by
          rw [← hRIN _ hinsInv, h', h1]
        by_cases hk2 : k2 = k
        · exfalso
          have hmem := List.mem_of_find?_eq_some h01
          have hpk := List.find?_some h01
          exact habs nd0 hmem (by rw [hk2]; simpa using hpk)
        · have heqn : entryOf (insertNode (t.resizeStep hashKey) k2 sq2 v
              (hashKey k2)) k = entryOf (t.resizeStep hashKey) k := by
            rw [entryOf, entryOf, hinsEq, hPS]
            exact find_middle_insert P S _ k (by simpa using hk2)
          rw [heqn, h01] at h1'
          injection h1' with h1''
          refine ⟨le_of_eq (by rw [h1'']), ?_⟩
          intro k3 sq3 heq
          cases heq
    · obtain ⟨hk, P, S, hallt1, hset, hunlinkEq, hunlinkInv⟩ :=
        locate_findNode hashKey _ k2 arr pos nd hInv1 hf
      by_cases hge : sq2 ≥ nd.seqNumber
      · by_cases hv : v = none
        · rw [put_found_eq hashKey k2 sq2 v (hashKey k2) t arr pos nd hf hge,
            if_pos hv] at hstep
          simp only [Option.map_some'] at hstep
          injection hstep with h'
          have hInvC : PartInv hashKey
              { (t.resizeStep hashKey).unlinkNodeAt arr (hashKey k2) pos with
                nNodes := ((t.resizeStep hashKey).unlinkNodeAt arr
                  (hashKey k2) pos).nNodes - 1 } :=
            inv_counters hashKey _ _ _ hunlinkInv
          have h1' : ((P ++ S).find? (fun x => x.key == k)) = some nd1 := by
            have e1 : entryOf { (t.resizeStep hashKey).unlinkNodeAt arr
                (hashKey k2) pos with
                nNodes := ((t.resizeStep hashKey).unlinkNodeAt arr
                  (hashKey k2) pos).nNodes - 1 } k =
                (P ++ S).find? (fun x => x.key == k) := by
              rw [entryOf]
              rw [show allNodes { (t.resizeStep hashKey).unlinkNodeAt arr
                  (hashKey k2) pos with
                  nNodes := ((t.resizeStep hashKey).unlinkNodeAt arr
                    (hashKey k2) pos).nNodes - 1 } =
                allNodes ((t.resizeStep hashKey).unlinkNodeAt arr
                  (hashKey k2) pos) from rfl, hunlinkEq]
            rw [← e1, ← hRIN _ hInvC, h', h1]
          by_cases hndk : nd.key = k
          · exfalso
            have hnd1 := hInv1.nodup
            rw [keysOf, hallt1] at hnd1
            have := find_middle_erase_matching P S nd hnd1
            rw [hndk] at this
            rw [this] at h1'
            cases h1'
          · have : (P ++ S).find? (fun x => x.key == k) =
                entryOf (t.resizeStep hashKey) k := by
              rw [entryOf, hallt1]
              exact (find_middle_insert P S nd k hndk).symm
            rw [this, h01] at h1'
            injection h1' with h1''
            refine ⟨le_of_eq (by rw [h1'']), ?_⟩
            intro k3 sq3 heq
            cases heq
        · rw [put_found_eq hashKey k2 sq2 v (hashKey k2) t arr pos nd hf hge,
            if_neg hv] at hstep
          simp only [Option.map_some'] at hstep
          injection hstep with h'
          obtain ⟨hsetEq, hsetInv⟩ := hset ⟨sq2, k2, v⟩ rfl
          have h1' : ((P ++ (⟨sq2, k2, v⟩ : Node) :: S).find?
              (fun x => x.key == k)) = some nd1 := by
            have e1 : entryOf ((t.resizeStep hashKey).setNodeAt arr
                (hashKey k2) pos ⟨sq2, k2, v⟩) k =
                (P ++ (⟨sq2, k2, v⟩ : Node) :: S).find? (fun x => x.key == k) := by
              rw [entryOf, hsetEq]
            rw [← e1, ← hRIN _ hsetInv, h', h1]
          have hkk : nd.key = (⟨sq2, k2, v⟩ : Node).key := by rw [hk]
          rcases find_middle_congr P S nd ⟨sq2, k2, v⟩ k hkk with hc | ⟨ha, hb⟩
          · rw [← hc] at h1'
            have : (P ++ nd :: S).find? (fun x => x.key == k) =
                entryOf (t.resizeStep hashKey) k := by
              rw [entryOf, hallt1]
            rw [this, h01] at h1'
            injection h1' with h1''
            refine ⟨le_of_eq (by rw [h1'']), ?_⟩
            intro k3 sq3 heq
            cases heq
          · have hnd0eq : nd0 = nd := by
              have : entryOf (t.resizeStep hashKey) k = some nd := by
                rw [entryOf, hallt1]
                exact ha
              rw [h01] at this
              injection this with h2
            have hnd1eq : nd1 = ⟨sq2, k2, v⟩ := by
              rw [hb] at h1'
              injection h1' with h2
              exact h2.symm
            refine ⟨?_, ?_⟩
            · rw [hnd0eq, hnd1eq]
              exact hge
            · intro k3 sq3 heq
              cases heq
      · rw [put_stale_eq hashKey k2 sq2 v (hashKey k2) t arr pos nd hf
          (by omega)] at hstep
        simp only [Option.map_some'] at hstep
        injection hstep with h'
        have h1' : entryOf (t.resizeStep hashKey) k = some nd1 := by
          rw [← hRIN _ hInv1, h', h1]
        rw [h01] at h1'
        injection h1' with h1''
        refine ⟨le_of_eq (by rw [h1'']), ?_⟩
        intro k3 sq3 heq
        cases heq
  | remove k2 sq2 =>
    simp only [applyOp] at hstep
    injection hstep with h'
    rcases hf : (t.resizeStep hashKey).findNode k2 (hashKey k2)
      with _ | ⟨arr, pos, nd⟩
    · rw [remove_none_eq hashKey k2 sq2 (hashKey k2) t hf] at h'
      simp only at h'
      have h1' : entryOf (t.resizeStep hashKey) k = some nd1 := by
        rw [h', h1]
      rw [h01] at h1'
      injection h1' with h1''
      exact ⟨le_of_eq (by rw [h1'']), fun _ _ _ => by rw [h1'']⟩
    · obtain ⟨hk, P, S, hallt1, hset, -, -⟩ :=
        locate_findNode hashKey _ k2 arr pos nd hInv1 hf
      by_cases hge : sq2 ≥ nd.seqNumber
      · rw [remove_found_eq hashKey k2 sq2 (hashKey k2) t arr pos nd hf hge] at h'
        simp only at h'
        obtain ⟨hsetEq, -⟩ := hset ⟨nd.seqNumber, nd.key, none⟩ hk
        have hall' : allNodes t' =
            P ++ (⟨nd.seqNumber, nd.key, none⟩ : Node) :: S := by
          rw [← h']
          by_cases hp : nd.ptr ≠ none
          · rw [if_pos hp]
            rw [show allNodes { (t.resizeStep hashKey).setNodeAt arr
                (hashKey k2) pos ⟨nd.seqNumber, nd.key, none⟩ with
                nElements := ((t.resizeStep hashKey).setNodeAt arr
                  (hashKey k2) pos ⟨nd.seqNumber, nd.key, none⟩).nElements - 1 } =
              allNodes ((t.resizeStep hashKey).setNodeAt arr (hashKey k2) pos
                ⟨nd.seqNumber, nd.key, none⟩) from rfl]
            exact hsetEq
          · rw [if_neg hp]
            exact hsetEq
        have h1' : ((P ++ (⟨nd.seqNumber, nd.key, none⟩ : Node) :: S).find?
            (fun x => x.key == k)) = some nd1 := by
          rw [← hall']
          rw [entryOf] at h1
          exact h1
        have hkk : nd.key = (⟨nd.seqNumber, nd.key, none⟩ : Node).key := rfl
        rcases find_middle_congr P S nd ⟨nd.seqNumber, nd.key, none⟩ k hkk
          with hc | ⟨ha, hb⟩
        · rw [← hc] at h1'
          have : (P ++ nd :: S).find? (fun x => x.key == k) =
              entryOf (t.resizeStep hashKey) k := by
            rw [entryOf, hallt1]
          rw [this, h01] at h1'
          injection h1' with h1''
          exact ⟨le_of_eq (by rw [h1'']), fun _ _ _ => by rw [h1'']⟩
        · have hnd0eq : nd0 = nd := by
            have : entryOf (t.resizeStep hashKey) k = some nd := by
              rw [entryOf, hallt1]
              exact ha
            rw [h01] at this
            injection this with h2
          have hnd1eq : nd1 = ⟨nd.seqNumber, nd.key, none⟩ := by
            rw [hb] at h1'
            injection h1' with h2
            exact h2.symm
          refine ⟨?_, ?_⟩
          · rw [hnd0eq, hnd1eq]
          · intro k3 sq3 heq
            rw [hnd0eq, hnd1eq]
      · rw [remove_stale_eq hashKey k2 sq2 (hashKey k2) t arr pos nd hf
          (by omega)] at h'
        simp only at h'
        have h1' : entryOf (t.resizeStep hashKey) k = some nd1 := by
          rw [h', h1]
        rw [h01] at h1'
        injection h1' with h1''
        exact ⟨le_of_eq (by rw [h1'']), fun _ _ _ => by rw [h1'']⟩

/-- Witness for `seq_never_decreases`: a put at sequence 6 over a stored
entry at sequence 5. -/
theorem seq_never_decreases_witness :
    (⟨5, [1], some 7⟩ : Node).seqNumber ≤ (⟨6, [1], some 8⟩ : Node).seqNumber :=
  (seq_never_decreases exampleHash (stateAfter [Op.put [1] 5 (some 7)])
    ⟨[Op.put [1] 5 (some 7)], by decide⟩ (Op.put [1] 6 (some 8))
    (stateAfter [Op.put [1] 5 (some 7), Op.put [1] 6 (some 8)])
    (by decide) [1] ⟨5, [1], some 7⟩ ⟨6, [1], some 8⟩ (by decide) (by decide)).1
